import Mathlib

/-!
Shallow embedding of the sand-game cellular-automaton engine
(src/crate/src/lib.rs) and verification of specification claims.

The cell buffer is modelled as a list of 4-field records (species, ra,
rb = temperature, clock), isomorphic to the source's flat byte buffer
with stride 4.  The global xorshift32 generator is threaded explicitly
as a `Nat` state (< 2^32).  The source's `rand() < p` comparisons on
f64 values are modelled as exact rational comparisons
`x / 4294967295 < num / den` on the raw u32 draw `x`; f64 rounding at
the extreme boundary of the threshold is abstracted to the exact
rational comparison (no claim below depends on the boundary value).
-/

/-- One grid cell: the four co-located byte fields of the source buffer. -/
structure Cell where
  species : Nat
  ra : Nat
  rb : Nat
  clock : Nat
deriving DecidableEq, Repr

def zeroCell : Cell := ⟨0, 0, 0, 0⟩

-- Species IDs (source lines 5-18)
def SPECIES_EMPTY : Nat := 0
def SPECIES_SAND : Nat := 1
def SPECIES_WATER : Nat := 2
def SPECIES_OIL : Nat := 3
def SPECIES_WALL : Nat := 4
def SPECIES_FIRE : Nat := 5
def SPECIES_PLANT : Nat := 6
def SPECIES_STEAM : Nat := 7
def SPECIES_LAVA : Nat := 8
def SPECIES_STONE : Nat := 9
def SPECIES_ICE : Nat := 10
def SPECIES_SMOKE : Nat := 11
def SPECIES_ACID : Nat := 12
def SPECIES_WOOD : Nat := 13

-- Temperature constants
def TEMP_AMBIENT : Nat := 12
def TEMP_FREEZE : Nat := 8
def TEMP_BOIL : Nat := 25
def TEMP_OIL_IGNITE : Nat := 40
def TEMP_WOOD_IGNITE : Nat := 48
def TEMP_PLANT_IGNITE : Nat := 55
def TEMP_STONE_MELT : Nat := 100
def TEMP_FIRE_PLACE : Nat := 180
def TEMP_LAVA_DEFAULT : Nat := 200
def TEMP_FIRE_SUSTAIN : Nat := 30
def TEMP_ICE_DEFAULT : Nat := 2

-- Fire fuel amounts
def FUEL_OIL_MIN : Nat := 30
def FUEL_OIL_MAX : Nat := 50
def FUEL_PLANT_MIN : Nat := 40
def FUEL_PLANT_MAX : Nat := 70
def FUEL_WOOD_MIN : Nat := 80
def FUEL_WOOD_MAX : Nat := 140
def FUEL_USER_PLACED : Nat := 60

-- ── PRNG (xorshift32) ──────────────────────────────────────────────

def U32 : Nat := 4294967296

def U32MAX : Nat := 4294967295

/-- One xorshift32 step: s ^= s<<13; s ^= s>>17; s ^= s<<5, on u32. -/
def xorshift32 (s : Nat) : Nat :=
  let s1 := s ^^^ ((s <<< 13) % U32)
  let s2 := s1 ^^^ (s1 >>> 17)
  s2 ^^^ ((s2 <<< 5) % U32)

/-- rand_u32: advance the generator state and return the new word. -/
def rand_u32 (r : Nat) : Nat × Nat :=
  let s := xorshift32 r
  (s, s)

/-- rand_bool: low bit of the next word is zero. -/
def rand_bool (r : Nat) : Bool × Nat :=
  let p := rand_u32 r
  (p.1 % 2 == 0, p.2)

/-- rand_ra: next word mod 30. -/
def rand_ra (r : Nat) : Nat × Nat :=
  let p := rand_u32 r
  (p.1 % 30, p.2)

/-- rand_range(min,max): uniform in [min,max) via modulo, degenerating
to min when the range is empty (no draw is consumed then). -/
def rand_range (lo hi : Nat) (r : Nat) : Nat × Nat :=
  let range := hi - lo
  if range == 0 then (lo, r)
  else
    let p := rand_u32 r
    (lo + p.1 % range, p.2)

/-- Models the source comparison rand() < num/den, where rand() is
(rand_u32() as f64) / (u32::MAX as f64), as the exact rational
comparison x * den < num * 4294967295. -/
def rand_lt (num den : Nat) (r : Nat) : Bool × Nat :=
  let p := rand_u32 r
  (decide (p.1 * den < num * U32MAX), p.2)

-- ── Grid storage ───────────────────────────────────────────────────

abbrev Buf := List Cell

/-- (cells, rng) pair threaded through the engine passes, mirroring the
source's (&mut cells, global RNG_STATE) pair. -/
abbrev St := Buf × Nat

def getc (buf : Buf) (i : Nat) : Cell := buf.getD i zeroCell

def setc (buf : Buf) (i : Nat) (c : Cell) : Buf := buf.set i c

def cell_idx (width x y : Nat) : Nat := y * width + x

def in_bounds (width height : Nat) (x y : Int) : Bool :=
  0 ≤ x && 0 ≤ y && x < (width : Int) && y < (height : Int)

def get_species (buf : Buf) (width x y : Nat) : Nat :=
  (getc buf (cell_idx width x y)).species

def get_clock (buf : Buf) (width x y : Nat) : Nat :=
  (getc buf (cell_idx width x y)).clock

def get_temp (buf : Buf) (width x y : Nat) : Nat :=
  (getc buf (cell_idx width x y)).rb

def set_clock (buf : Buf) (width x y clk : Nat) : Buf :=
  setc buf (cell_idx width x y) { getc buf (cell_idx width x y) with clock := clk }

def set_cell_raw (buf : Buf) (width x y species ra rb clock : Nat) : Buf :=
  setc buf (cell_idx width x y) ⟨species, ra, rb, clock⟩

def swap_cells (buf : Buf) (width x1 y1 x2 y2 : Nat) : Buf :=
  let i1 := cell_idx width x1 y1
  let i2 := cell_idx width x2 y2
  let c1 := getc buf i1
  let c2 := getc buf i2
  setc (setc buf i1 c2) i2 c1

-- ── Conductivity ───────────────────────────────────────────────────

def CONDUCTIVITY : List Nat := [5, 38, 64, 26, 13, 102, 20, 8, 90, 51, 77, 5, 51, 20]

def conductivity (species : Nat) : Nat := CONDUCTIVITY.getD species 5

-- ── Heat conduction ────────────────────────────────────────────────

def clamp255 (v : Int) : Int := min (max v 0) 255

def heat_neighbors : List (Int × Int) := [(1, 0), (0, 1), (-1, 1), (1, 1)]

/-- Row-major scan order of the grid (y outer, x inner). -/
def grid_points (width height : Nat) : List (Nat × Nat) :=
  (List.range height).bind (fun y => (List.range width).map (fun x => (x, y)))

/-- The source's per-neighbor exchange arithmetic: min conductivity,
truncating integer delta, and the two clamped results.  When delta = 0
the source skips the write; returning the unchanged pair is
value-identical. -/
def heat_exchange (cond_a running temp_b : Int) (sp_b : Nat) : Int × Int :=
  let min_cond := min cond_a ((conductivity sp_b : Int))
  let delta := Int.tdiv ((running - temp_b) * min_cond) 512
  if delta ≠ 0 then (clamp255 (running - delta), clamp255 (temp_b + delta))
  else (running, temp_b)

/-- The exchange with one neighbor: accumulator carries cell a's running
temperature; the neighbor's temperature is written back. -/
def heat_neighbor_step (width height x y : Nat) (cond_a : Int)
    (acc : Int × Buf) (d : Int × Int) : Int × Buf :=
  let running := acc.1
  let buf := acc.2
  let nx : Int := (x : Int) + d.1
  let ny : Int := (y : Int) + d.2
  if in_bounds width height nx ny then
    let i_b := cell_idx width nx.toNat ny.toNat
    let cb := getc buf i_b
    let res := heat_exchange cond_a running ((cb.rb : Int)) cb.species
    (res.1, setc buf i_b { cb with rb := res.2.toNat })
  else (running, buf)

def heat_cell (width height x y : Nat) (st : St) : St :=
  let i_a := cell_idx width x y
  let ca := getc st.1 i_a
  let cond_a : Int := (conductivity ca.species : Int)
  let res := heat_neighbors.foldl (heat_neighbor_step width height x y cond_a)
    ((ca.rb : Int), st.1)
  let buf1 := setc res.2 i_a { getc res.2 i_a with rb := res.1.toNat }
  if ca.species ≠ SPECIES_EMPTY ∧ ca.species ≠ SPECIES_WALL then
    let p := rand_u32 st.2
    if p.1 % 8 == 0 then
      let t := (getc buf1 i_a).rb
      if TEMP_AMBIENT < t then
        (setc buf1 i_a { getc buf1 i_a with rb := t - 1 }, p.2)
      else if t < TEMP_AMBIENT then
        (setc buf1 i_a { getc buf1 i_a with rb := t + 1 }, p.2)
      else (buf1, p.2)
    else (buf1, p.2)
  else (buf1, st.2)

def heat_conduction (width height : Nat) (st : St) : St :=
  (grid_points width height).foldl (fun s p => heat_cell width height p.1 p.2 s) st

-- ── Phase transitions ──────────────────────────────────────────────

/-- The per-cell transition of the phase pass (independent of neighbors). -/
def phase_cell (c : Cell) (r : Nat) : Cell × Nat :=
  if c.species == SPECIES_WATER then
    if TEMP_BOIL ≤ c.rb then
      let p := rand_ra r
      ({ c with species := SPECIES_STEAM, ra := p.1 }, p.2)
    else if c.rb < TEMP_FREEZE then
      let p := rand_ra r
      ({ c with species := SPECIES_ICE, ra := p.1 }, p.2)
    else (c, r)
  else if c.species == SPECIES_ICE then
    if TEMP_FREEZE + 3 ≤ c.rb then
      let p := rand_ra r
      ({ c with species := SPECIES_WATER, ra := p.1 }, p.2)
    else (c, r)
  else if c.species == SPECIES_STEAM then
    if c.rb < TEMP_BOIL - 6 then
      let p := rand_ra r
      ({ c with species := SPECIES_WATER, ra := p.1 }, p.2)
    else (c, r)
  else if c.species == SPECIES_STONE then
    if TEMP_STONE_MELT ≤ c.rb then
      let p := rand_ra r
      ({ c with species := SPECIES_LAVA, ra := p.1 }, p.2)
    else (c, r)
  else if c.species == SPECIES_LAVA then
    if c.rb < TEMP_STONE_MELT - 5 then
      let p := rand_ra r
      ({ c with species := SPECIES_STONE, ra := p.1 }, p.2)
    else (c, r)
  else if c.species == SPECIES_OIL then
    if TEMP_OIL_IGNITE ≤ c.rb then
      let p := rand_range FUEL_OIL_MIN FUEL_OIL_MAX r
      ({ c with
          species := SPECIES_FIRE, ra := p.1,
          rb := max c.rb (TEMP_FIRE_SUSTAIN + 30) }, p.2)
    else (c, r)
  else if c.species == SPECIES_PLANT then
    if TEMP_PLANT_IGNITE ≤ c.rb then
      let p := rand_range FUEL_PLANT_MIN FUEL_PLANT_MAX r
      ({ c with
          species := SPECIES_FIRE, ra := p.1,
          rb := max c.rb (TEMP_FIRE_SUSTAIN + 30) }, p.2)
    else (c, r)
  else if c.species == SPECIES_WOOD then
    if TEMP_WOOD_IGNITE ≤ c.rb then
      let p := rand_range FUEL_WOOD_MIN FUEL_WOOD_MAX r
      ({ c with
          species := SPECIES_FIRE, ra := p.1,
          rb := max c.rb (TEMP_FIRE_SUSTAIN + 30) }, p.2)
    else (c, r)
  else (c, r)

def phase_step (width : Nat) (st : St) (p : Nat × Nat) : St :=
  let i := cell_idx width p.1 p.2
  let res := phase_cell (getc st.1 i) st.2
  (setc st.1 i res.1, res.2)

def phase_transitions (width height : Nat) (st : St) : St :=
  (grid_points width height).foldl (phase_step width) st

-- ── Movement primitives ────────────────────────────────────────────

/-- Try a diagonal-up entry for a rising gas. -/
def rise_try (width height x y clk : Nat) (can_enter : Nat → Bool) (dx : Int)
    (buf : Buf) : Option Buf :=
  let nx : Int := (x : Int) + dx
  let ny : Int := (y : Int) - 1
  if in_bounds width height nx ny then
    if can_enter (get_species buf width nx.toNat ny.toNat) then
      some (set_clock (swap_cells buf width x y nx.toNat ny.toNat) width
        nx.toNat ny.toNat clk)
    else none
  else none

/-- The lateral-drift tail of rise_gas. -/
def rise_drift (width height x y clk : Nat) (can_enter : Nat → Bool)
    (drift_chance : Nat) (st : St) : St × Bool :=
  let p := rand_u32 st.2
  if p.1 % 256 < drift_chance then
    let q := rand_bool p.2
    let dx : Int := if q.1 then -1 else 1
    let nx : Int := (x : Int) + dx
    if in_bounds width height nx (y : Int) then
      if can_enter (get_species st.1 width nx.toNat y) then
        ((set_clock (swap_cells st.1 width x y nx.toNat y) width nx.toNat y clk,
          q.2), true)
      else ((st.1, q.2), false)
    else ((st.1, q.2), false)
  else ((st.1, p.2), false)

def rise_gas (width height x y clk : Nat) (can_enter : Nat → Bool)
    (drift_chance : Nat) (st : St) : St × Bool :=
  if 0 < y then
    if can_enter (get_species st.1 width x (y - 1)) then
      ((set_clock (swap_cells st.1 width x y x (y - 1)) width x (y - 1) clk,
        st.2), true)
    else
      let p := rand_bool st.2
      let dx1 : Int := if p.1 then -1 else 1
      match rise_try width height x y clk can_enter dx1 st.1 with
      | some buf => ((buf, p.2), true)
      | none =>
        match rise_try width height x y clk can_enter (-dx1) st.1 with
        | some buf => ((buf, p.2), true)
        | none => rise_drift width height x y clk can_enter drift_chance (st.1, p.2)
  else rise_drift width height x y clk can_enter drift_chance st

/-- Neighbor offsets (dx,dy) in source order: dy outer over -1,0,1 and dx
inner over -1,0,1, skipping (0,0). -/
def all_neighbor_offsets : List (Int × Int) :=
  [(-1, -1), (0, -1), (1, -1), (-1, 0), (1, 0), (-1, 1), (0, 1), (1, 1)]

def radiate_heat (width height x y : Nat) (amount : Int) (buf : Buf) : Buf :=
  all_neighbor_offsets.foldl (fun b d =>
    let nx : Int := (x : Int) + d.1
    let ny : Int := (y : Int) + d.2
    if in_bounds width height nx ny then
      let ni := cell_idx width nx.toNat ny.toNat
      let c := getc b ni
      setc b ni { c with rb := (min ((c.rb : Int) + amount) 255).toNat }
    else b) buf

/-- Try a diagonal-down entry for a falling granular cell. -/
def fall_try (width height x y below_y clk : Nat) (can_fall_into : Nat → Bool)
    (dx : Int) (buf : Buf) : Option Buf :=
  let nx : Int := (x : Int) + dx
  if in_bounds width height nx (below_y : Int) then
    if can_fall_into (get_species buf width nx.toNat below_y) then
      some (set_clock (swap_cells buf width x y nx.toNat below_y) width
        nx.toNat below_y clk)
    else none
  else none

def fall_granular (width height x y clk : Nat) (can_fall_into : Nat → Bool)
    (st : St) : St :=
  let below_y := y + 1
  if below_y < height then
    if can_fall_into (get_species st.1 width x below_y) then
      (set_clock (swap_cells st.1 width x y x below_y) width x below_y clk, st.2)
    else
      let p := rand_bool st.2
      let dx1 : Int := if p.1 then -1 else 1
      match fall_try width height x y below_y clk can_fall_into dx1 st.1 with
      | some buf => (buf, p.2)
      | none =>
        match fall_try width height x y below_y clk can_fall_into (-dx1) st.1 with
        | some buf => (buf, p.2)
        | none => (st.1, p.2)
  else st

-- ── Species updates ────────────────────────────────────────────────

def update_sand (width height x y clk : Nat) (st : St) : St :=
  fall_granular width height x y clk
    (fun s => s == SPECIES_EMPTY || s == SPECIES_WATER || s == SPECIES_OIL ||
      s == SPECIES_ACID) st

def can_displace (species target : Nat) : Bool :=
  if species == SPECIES_WATER then
    target == SPECIES_EMPTY || target == SPECIES_OIL
  else if species == SPECIES_OIL then target == SPECIES_EMPTY
  else if species == SPECIES_LAVA then
    target == SPECIES_EMPTY || target == SPECIES_WATER ||
      target == SPECIES_OIL || target == SPECIES_SAND
  else if species == SPECIES_ACID then
    target == SPECIES_EMPTY || target == SPECIES_OIL
  else target == SPECIES_EMPTY

/-- The lateral-spread loop of update_liquid: steps outward in direction
dir, stopping at the first swap, out-of-bounds, or exhaustion. -/
def spread_go (width height x y clk species : Nat) (dir : Int) :
    Nat → Nat → Buf → Buf
  | _, 0, buf => buf
  | step, rem + 1, buf =>
    let nx : Int := (x : Int) + dir * (step : Int)
    if in_bounds width height nx (y : Int) then
      if can_displace species (get_species buf width nx.toNat y) then
        set_clock (swap_cells buf width x y nx.toNat y) width nx.toNat y clk
      else spread_go width height x y clk species dir (step + 1) rem buf
    else buf

def liquid_try (width height x y below_y clk species : Nat) (dx : Int)
    (buf : Buf) : Option Buf :=
  let nx : Int := (x : Int) + dx
  if in_bounds width height nx (below_y : Int) then
    if can_displace species (get_species buf width nx.toNat below_y) then
      some (set_clock (swap_cells buf width x y nx.toNat below_y) width
        nx.toNat below_y clk)
    else none
  else none

def liquid_lateral (width height x y clk species spread : Nat) (buf : Buf)
    (r : Nat) : St :=
  let p := rand_bool r
  let dir : Int := if p.1 then -1 else 1
  (spread_go width height x y clk species dir 1 spread buf, p.2)

def update_liquid (width height x y species spread clk : Nat) (st : St) : St :=
  let below_y := y + 1
  if below_y < height &&
      can_displace species (get_species st.1 width x below_y) then
    (set_clock (swap_cells st.1 width x y x below_y) width x below_y clk, st.2)
  else if below_y < height then
    let p := rand_bool st.2
    let dx1 : Int := if p.1 then -1 else 1
    match liquid_try width height x y below_y clk species dx1 st.1 with
    | some buf => (buf, p.2)
    | none =>
      match liquid_try width height x y below_y clk species (-dx1) st.1 with
      | some buf => (buf, p.2)
      | none => liquid_lateral width height x y clk species spread st.1 p.2
  else liquid_lateral width height x y clk species spread st.1 st.2

def update_fire (width height x y clk : Nat) (st : St) : St :=
  let i := cell_idx width x y
  let c := getc st.1 i
  let fuel := c.ra
  let temp := c.rb
  if fuel ≤ 1 then
    let p := rand_lt 3 5 st.2
    if p.1 then
      let q := rand_ra p.2
      (setc st.1 i { c with species := SPECIES_SMOKE, ra := q.1 }, q.2)
    else
      (setc st.1 i { c with species := SPECIES_EMPTY, ra := 0, rb := 0 }, p.2)
  else
    let buf1 := setc st.1 i { c with ra := fuel - 1 }
    if temp < TEMP_FIRE_SUSTAIN then
      let q := rand_ra st.2
      (setc buf1 i { getc buf1 i with species := SPECIES_SMOKE, ra := q.1 }, q.2)
    else
      let buf2 := setc buf1 i { getc buf1 i with rb := (min ((temp : Int) + 3) 230).toNat }
      let buf3 := radiate_heat width height x y 2 buf2
      (rise_gas width height x y clk
        (fun s => s == SPECIES_EMPTY || s == SPECIES_SMOKE) 77 (buf3, st.2)).1

def update_stone (width height x y clk : Nat) (st : St) : St :=
  fall_granular width height x y clk
    (fun s => s == SPECIES_EMPTY || s == SPECIES_WATER || s == SPECIES_OIL ||
      s == SPECIES_SAND || s == SPECIES_ACID) st

def update_plant (width height x y clk : Nat) (st : St) : St :=
  let p := rand_lt 1 25 st.2
  if p.1 then
    let q := rand_u32 p.2
    let pick : Int × Int × Nat :=
      if q.1 * 2 < 1 * U32MAX then
        let b := rand_bool q.2
        if b.1 then (-1, -1, b.2)
        else
          let c2 := rand_lt 1 2 b.2
          (if c2.1 then 0 else 1, -1, c2.2)
      else if q.1 * 20 < 17 * U32MAX then
        let b := rand_bool q.2
        (if b.1 then -1 else 1, 0, b.2)
      else
        let b := rand_bool q.2
        if b.1 then (-1, 1, b.2)
        else
          let c2 := rand_lt 1 2 b.2
          (if c2.1 then 0 else 1, 1, c2.2)
    let gx : Int := (x : Int) + pick.1
    let gy : Int := (y : Int) + pick.2.1
    let r := pick.2.2
    if in_bounds width height gx gy then
      if get_species st.1 width gx.toNat gy.toNat == SPECIES_WATER then
        let a := rand_ra r
        (set_cell_raw st.1 width gx.toNat gy.toNat SPECIES_PLANT a.1
          TEMP_AMBIENT clk, a.2)
      else (st.1, r)
    else (st.1, r)
  else (st.1, p.2)

def update_steam (width height x y clk : Nat) (st : St) : St :=
  let p := rand_lt 3 10 st.2
  let st1 : St :=
    if p.1 then
      let q := rand_ra p.2
      (setc st.1 (cell_idx width x y)
        { getc st.1 (cell_idx width x y) with ra := q.1 }, q.2)
    else (st.1, p.2)
  (rise_gas width height x y clk (fun s => s == SPECIES_EMPTY) 128 st1).1

def update_lava (width height x y clk : Nat) (st : St) : St :=
  let p := rand_lt 3 10 st.2
  let st1 : St :=
    if p.1 then
      let q := rand_ra p.2
      (setc st.1 (cell_idx width x y)
        { getc st.1 (cell_idx width x y) with ra := q.1 }, q.2)
    else (st.1, p.2)
  let buf2 := radiate_heat width height x y 1 st1.1
  update_liquid width height x y SPECIES_LAVA 1 clk (buf2, st1.2)

def update_smoke (width height x y clk : Nat) (st : St) : St :=
  let temp := get_temp st.1 width x y
  if temp ≤ TEMP_AMBIENT + 2 then
    let i := cell_idx width x y
    (setc st.1 i { getc st.1 i with species := SPECIES_EMPTY, ra := 0, rb := 0 },
      st.2)
  else
    let p := rand_lt 3 10 st.2
    let st1 : St :=
      if p.1 then
        let q := rand_ra p.2
        (setc st.1 (cell_idx width x y)
          { getc st.1 (cell_idx width x y) with ra := q.1 }, q.2)
      else (st.1, p.2)
    (rise_gas width height x y clk (fun s => s == SPECIES_EMPTY) 153 st1).1

def dissolvable (s : Nat) : Bool :=
  s == SPECIES_SAND || s == SPECIES_STONE || s == SPECIES_PLANT ||
    s == SPECIES_WOOD || s == SPECIES_ICE

/-- The neighbor scan of update_acid: returns the state and whether the
acid cell itself was consumed; the scan stops at the first dissolution. -/
def acid_scan (width height x y clk : Nat) : List (Int × Int) → St → St × Bool
  | [], st => (st, false)
  | d :: rest, st =>
    let nx : Int := (x : Int) + d.1
    let ny : Int := (y : Int) + d.2
    if in_bounds width height nx ny then
      if dissolvable (get_species st.1 width nx.toNat ny.toNat) then
        let p := rand_lt 1 5 st.2
        if p.1 then
          let buf1 := set_cell_raw st.1 width nx.toNat ny.toNat SPECIES_EMPTY 0 0 clk
          let q := rand_lt 2 5 p.2
          if q.1 then
            ((set_cell_raw buf1 width x y SPECIES_EMPTY 0 0 clk, q.2), true)
          else ((buf1, q.2), false)
        else acid_scan width height x y clk rest (st.1, p.2)
      else acid_scan width height x y clk rest st
    else acid_scan width height x y clk rest st

def update_acid (width height x y clk : Nat) (st : St) : St :=
  let res := acid_scan width height x y clk all_neighbor_offsets st
  if res.2 then res.1
  else update_liquid width height x y SPECIES_ACID 2 clk res.1

-- ── World orchestrator ─────────────────────────────────────────────

/-- The per-species dispatch of the scan (the match in World::tick),
applied to the already-stamped state. -/
def scan_dispatch (width height clk x y species : Nat) (st1 : St) : St :=
  if species == SPECIES_SAND then update_sand width height x y clk st1
  else if species == SPECIES_WATER then
    update_liquid width height x y SPECIES_WATER 2 clk st1
  else if species == SPECIES_OIL then
    update_liquid width height x y SPECIES_OIL 1 clk st1
  else if species == SPECIES_FIRE then update_fire width height x y clk st1
  else if species == SPECIES_PLANT then update_plant width height x y clk st1
  else if species == SPECIES_STEAM then update_steam width height x y clk st1
  else if species == SPECIES_LAVA then update_lava width height x y clk st1
  else if species == SPECIES_STONE then update_stone width height x y clk st1
  else if species == SPECIES_SMOKE then update_smoke width height x y clk st1
  else if species == SPECIES_ACID then update_acid width height x y clk st1
  else st1

def scan_cell (width height clk x y : Nat) (st : St) : St :=
  if (getc st.1 (cell_idx width x y)).clock == clk then st
  else
    scan_dispatch width height clk x y (getc st.1 (cell_idx width x y)).species
      (set_clock st.1 width x y clk, st.2)

def row_scan (width height clk y : Nat) (st : St) : St :=
  let p := rand_bool st.2
  (List.range width).foldl
    (fun st2 step =>
      scan_cell width height clk (if p.1 then step else width - 1 - step) y st2)
    (st.1, p.2)

def tick_scan (width height clk : Nat) (st : St) : St :=
  ((List.range height).reverse).foldl
    (fun st2 y => row_scan width height clk y st2) st

structure World where
  width : Nat
  height : Nat
  cells : Buf
  clock : Nat
  rng : Nat
deriving DecidableEq, Repr

/-- The seed installed by World::new on the native path. -/
def RNG_SEED : Nat := 0xDEADBEEF

def World.new (width height : Nat) : World :=
  { width := width, height := height,
    cells := List.replicate (width * height) zeroCell,
    clock := 0, rng := RNG_SEED }

def World.tick (w : World) : World :=
  let clk := if w.clock == 0 then 1 else 0
  let st1 := heat_conduction w.width w.height (w.cells, w.rng)
  let st2 := phase_transitions w.width w.height st1
  let st3 := tick_scan w.width w.height clk st2
  { w with cells := st3.1, clock := clk, rng := st3.2 }

def World.set_cell (w : World) (x y species : Nat) : World :=
  if w.width ≤ x ∨ w.height ≤ y then w
  else if SPECIES_WOOD < species then w
  else
    let pr : Nat × Nat × Nat :=
      if species == SPECIES_EMPTY || species == SPECIES_WALL then (0, 0, w.rng)
      else if species == SPECIES_FIRE then
        (FUEL_USER_PLACED, TEMP_FIRE_PLACE, w.rng)
      else if species == SPECIES_LAVA then
        let p := rand_ra w.rng
        (p.1, TEMP_LAVA_DEFAULT, p.2)
      else if species == SPECIES_STEAM then
        let p := rand_ra w.rng
        (p.1, TEMP_BOIL + 5, p.2)
      else if species == SPECIES_ICE then
        let p := rand_ra w.rng
        (p.1, TEMP_ICE_DEFAULT, p.2)
      else
        let p := rand_ra w.rng
        (p.1, TEMP_AMBIENT, p.2)
    { w with
      cells := set_cell_raw w.cells w.width x y species pr.1 pr.2.1 w.clock,
      rng := pr.2.2 }

def World.clear (w : World) : World :=
  { w with cells := w.cells.map (fun _ => zeroCell) }

-- ── Basic buffer lemmas ────────────────────────────────────────────

theorem length_setc (buf : Buf) (i : Nat) (c : Cell) :
    (setc buf i c).length = buf.length := List.length_set buf i c

theorem getc_setc_eq : ∀ (buf : Buf) (i : Nat) (c : Cell), i < buf.length →
    getc (setc buf i c) i = c
  | [], i, c, h => absurd h (by simp)
  | _ :: _, 0, _, _ => rfl
  | b :: t, i + 1, c, h =>
    getc_setc_eq t i c (by simpa using h)

theorem getc_setc_ne : ∀ (buf : Buf) (i j : Nat) (c : Cell), i ≠ j →
    getc (setc buf i c) j = getc buf j
  | [], _, _, _, _ => rfl
  | _ :: _, 0, 0, _, h => absurd rfl h
  | _ :: _, 0, _ + 1, _, _ => rfl
  | _ :: _, _ + 1, 0, _, _ => rfl
  | b :: t, i + 1, j + 1, c, h =>
    getc_setc_ne t i j c (fun hh => h (by rw [hh]))

theorem setc_getc_self : ∀ (buf : Buf) (i : Nat), setc buf i (getc buf i) = buf
  | [], _ => rfl
  | _ :: _, 0 => rfl
  | b :: t, i + 1 => by
    show b :: setc t i (getc t i) = b :: t
    rw [setc_getc_self t i]

theorem getc_oob : ∀ (buf : Buf) (i : Nat), buf.length ≤ i → getc buf i = zeroCell
  | [], _, _ => rfl
  | _ :: _, 0, h => absurd h (by simp)
  | _ :: t, i + 1, h => getc_oob t i (by simpa using h)

theorem setc_oob (buf : Buf) (i : Nat) (c : Cell) (h : buf.length ≤ i) :
    setc buf i c = buf := List.set_eq_of_length_le h

-- ── Claim theorems: C1, C3, C10 ────────────────────────────────────

/-- Claim C1: determinism of the whole engine.  All randomness routes
through the explicitly threaded generator, which World.new seeds to a
fixed value, so two runs of create(width,height) followed by N tick()
calls produce identical cell buffers for every width, height and N. -/
theorem engine_deterministic (width height n : Nat) (w1 w2 : World)
    (h1 : w1 = World.new width height) (h2 : w2 = World.new width height) :
    (World.tick^[n] w1).cells = (World.tick^[n] w2).cells := by
  subst h1; subst h2; rfl

theorem engine_deterministic_witness :
    (World.tick^[2] (World.new 3 3)).cells = (World.tick^[2] (World.new 3 3)).cells :=
  engine_deterministic 3 3 2 (World.new 3 3) (World.new 3 3) rfl rfl

/-- Claim C3: set_cell with x ≥ width, y ≥ height, or an undefined
species id (> SPECIES_WOOD) leaves the entire world state — cell
buffer, dimensions, parity, and generator state — unchanged, with no
partial effect. -/
theorem set_cell_invalid_noop (w : World) (x y species : Nat)
    (h : w.width ≤ x ∨ w.height ≤ y ∨ SPECIES_WOOD < species) :
    w.set_cell x y species = w := by
  unfold World.set_cell
  rcases h with h | h | h
  · rw [if_pos (Or.inl h)]
  · rw [if_pos (Or.inr h)]
  · by_cases hb : w.width ≤ x ∨ w.height ≤ y
    · rw [if_pos hb]
    · rw [if_neg hb, if_pos h]

theorem set_cell_invalid_noop_witness :
    (World.new 5 5).set_cell 5 0 SPECIES_SAND = World.new 5 5 ∧
    (World.new 5 5).set_cell 0 5 SPECIES_SAND = World.new 5 5 ∧
    (World.new 5 5).set_cell 2 2 14 = World.new 5 5 :=
  ⟨set_cell_invalid_noop (World.new 5 5) 5 0 SPECIES_SAND (Or.inl (by decide)),
   set_cell_invalid_noop (World.new 5 5) 0 5 SPECIES_SAND (Or.inr (Or.inl (by decide))),
   set_cell_invalid_noop (World.new 5 5) 2 2 14 (Or.inr (Or.inr (by decide)))⟩

theorem getc_map_zero : ∀ (l : Buf) (i : Nat),
    getc (l.map (fun _ => zeroCell)) i = zeroCell
  | [], _ => rfl
  | _ :: _, 0 => rfl
  | _ :: t, i + 1 => getc_map_zero t i

/-- Claim C10: clear() zeroes every cell record (species, ra, rb and
clock all 0) and changes nothing else: width, height, buffer length,
tick-parity and the random source state are unchanged. -/
theorem clear_zeroes_frame (w : World) :
    (∀ i, getc w.clear.cells i = zeroCell) ∧
    w.clear.cells.length = w.cells.length ∧
    w.clear.width = w.width ∧ w.clear.height = w.height ∧
    w.clear.clock = w.clock ∧ w.clear.rng = w.rng :=
  ⟨fun i => getc_map_zero w.cells i, List.length_map w.cells _, rfl, rfl, rfl, rfl⟩

-- ── Index lemmas ───────────────────────────────────────────────────

theorem cell_idx_lt (width height x y : Nat) (hx : x < width) (hy : y < height) :
    cell_idx width x y < width * height := by
  unfold cell_idx
  have h2 : y * width + width = (y + 1) * width := by ring
  have h3 : (y + 1) * width ≤ height * width := Nat.mul_le_mul_right _ hy
  have h4 : height * width = width * height := Nat.mul_comm _ _
  omega

theorem cell_idx_inj (width x1 y1 x2 y2 : Nat) (h1 : x1 < width) (h2 : x2 < width)
    (heq : cell_idx width x1 y1 = cell_idx width x2 y2) : x1 = x2 ∧ y1 = y2 := by
  unfold cell_idx at heq
  have hx : x1 = x2 := by
    have e1 : (x1 + y1 * width) % width = x1 % width := Nat.add_mul_mod_self_right x1 y1 width
    have e2 : (x2 + y2 * width) % width = x2 % width := Nat.add_mul_mod_self_right x2 y2 width
    have : x1 % width = x2 % width := by
      rw [← e1, ← e2]
      have : x1 + y1 * width = x2 + y2 * width := by omega
      rw [this]
    rwa [Nat.mod_eq_of_lt h1, Nat.mod_eq_of_lt h2] at this
  refine ⟨hx, ?_⟩
  subst hx
  have hw : 0 < width := by omega
  have : y1 * width = y2 * width := by omega
  exact Nat.eq_of_mul_eq_mul_right hw this

theorem mem_grid_points (width height x y : Nat) (hx : x < width) (hy : y < height) :
    (x, y) ∈ grid_points width height := by
  unfold grid_points
  rw [List.mem_bind]
  exact ⟨y, List.mem_range.2 hy, List.mem_map.2 ⟨x, List.mem_range.2 hx, rfl⟩⟩

theorem mem_grid_points_bound (width height : Nat) (q : Nat × Nat)
    (h : q ∈ grid_points width height) : q.1 < width ∧ q.2 < height := by
  unfold grid_points at h
  rw [List.mem_bind] at h
  obtain ⟨y, hy, hq⟩ := h
  rw [List.mem_map] at hq
  obtain ⟨x, hxm, rfl⟩ := hq
  exact ⟨List.mem_range.1 hxm, List.mem_range.1 hy⟩

theorem nodup_grid_points (width height : Nat) : (grid_points width height).Nodup := by
  unfold grid_points
  rw [List.nodup_bind]
  constructor
  · intro y _
    have hinj : Function.Injective (fun x : Nat => (x, y)) :=
      fun a b h => congrArg Prod.fst h
    exact List.Nodup.map hinj (List.nodup_range width)
  · have hd : ∀ a b : Nat, a ≠ b →
        (List.Disjoint ((List.range width).map (fun x => (x, a)))
          ((List.range width).map (fun x => (x, b)))) := by
      intro a b hab p hpa hpb
      rw [List.mem_map] at hpa hpb
      obtain ⟨x1, _, rfl⟩ := hpa
      obtain ⟨x2, _, he⟩ := hpb
      have h2 : b = a := congrArg Prod.snd he
      exact hab h2.symm
    exact List.Pairwise.imp (fun {a b} hab => hd a b hab) (List.nodup_range height)

-- ── Phase-pass pointwise machinery ─────────────────────────────────

theorem length_phase_step (width : Nat) (st : St) (q : Nat × Nat) :
    (phase_step width st q).1.length = st.1.length := length_setc _ _ _

theorem length_phase_fold (width : Nat) :
    ∀ (L : List (Nat × Nat)) (st : St),
      (L.foldl (phase_step width) st).1.length = st.1.length
  | [], _ => rfl
  | q :: L, st => by
    have h1 := length_phase_fold width L (phase_step width st q)
    have h2 := length_phase_step width st q
    calc (List.foldl (phase_step width) st (q :: L)).1.length
        = (List.foldl (phase_step width) (phase_step width st q) L).1.length := rfl
      _ = st.1.length := by rw [h1, h2]

theorem length_phase_transitions (width height : Nat) (st : St) :
    (phase_transitions width height st).1.length = st.1.length :=
  length_phase_fold width _ st

theorem phase_fold_frame (width : Nat) (p : Nat) :
    ∀ (L : List (Nat × Nat)) (st : St),
      (∀ q ∈ L, cell_idx width q.1 q.2 ≠ p) →
      getc (L.foldl (phase_step width) st).1 p = getc st.1 p
  | [], _, _ => rfl
  | q :: L, st, h => by
    have h1 : getc (phase_step width st q).1 p = getc st.1 p :=
      getc_setc_ne _ _ _ _ (h q (List.mem_cons_self q L))
    have h2 := phase_fold_frame width p L (phase_step width st q)
      (fun q' hq' => h q' (List.mem_cons_of_mem _ hq'))
    calc getc (List.foldl (phase_step width) st (q :: L)).1 p
        = getc (List.foldl (phase_step width) (phase_step width st q) L).1 p := rfl
      _ = getc st.1 p := by rw [h2, h1]

theorem phase_fold_once (width x y : Nat) :
    ∀ (L : List (Nat × Nat)) (st : St),
      (x, y) ∈ L → L.Nodup →
      (∀ q ∈ L, q ≠ (x, y) → cell_idx width q.1 q.2 ≠ cell_idx width x y) →
      cell_idx width x y < st.1.length →
      ∃ r, getc (L.foldl (phase_step width) st).1 (cell_idx width x y) =
        (phase_cell (getc st.1 (cell_idx width x y)) r).1
  | [], _, hm, _, _, _ => absurd hm (List.not_mem_nil _)
  | q :: L, st, hm, hnd, hne, hlt => by
    rw [List.nodup_cons] at hnd
    by_cases hq : q = (x, y)
    · have hnm : (x, y) ∉ L := hq ▸ hnd.1
      have hfr : getc (List.foldl (phase_step width) (phase_step width st q) L).1
          (cell_idx width x y) = getc (phase_step width st q).1 (cell_idx width x y) :=
        phase_fold_frame width _ L _ (fun q' hq' => by
          by_cases h2 : q' = (x, y)
          · exact absurd (h2 ▸ hq') hnm
          · exact hne q' (List.mem_cons_of_mem _ hq') h2)
      refine ⟨st.2, ?_⟩
      have hstep : getc (phase_step width st q).1 (cell_idx width x y) =
          (phase_cell (getc st.1 (cell_idx width x y)) st.2).1 := by
        rw [hq]
        exact getc_setc_eq _ _ _ hlt
      calc getc (List.foldl (phase_step width) st (q :: L)).1 (cell_idx width x y)
          = getc (phase_step width st q).1 (cell_idx width x y) := hfr
        _ = (phase_cell (getc st.1 (cell_idx width x y)) st.2).1 := hstep
    · have hm2 : (x, y) ∈ L := by
        rcases List.mem_cons.1 hm with h | h
        · exact absurd h.symm hq
        · exact h
      have hidx : cell_idx width q.1 q.2 ≠ cell_idx width x y :=
        hne q (List.mem_cons_self q L) hq
      have h1 : getc (phase_step width st q).1 (cell_idx width x y) =
          getc st.1 (cell_idx width x y) := getc_setc_ne _ _ _ _ hidx
      have hlt2 : cell_idx width x y < (phase_step width st q).1.length := by
        rw [length_phase_step]
        exact hlt
      obtain ⟨r, hr⟩ := phase_fold_once width x y L (phase_step width st q) hm2 hnd.2
        (fun q' hq' h2 => hne q' (List.mem_cons_of_mem _ hq') h2) hlt2
      exact ⟨r, by rw [← h1]; exact hr⟩

/-- Each in-range position is processed exactly once by the phase pass:
the resulting cell there is phase_cell applied to the old cell, at some
generator state. -/
theorem phase_at (width height x y : Nat) (hx : x < width) (hy : y < height)
    (st : St) (hlen : cell_idx width x y < st.1.length) :
    ∃ r, getc (phase_transitions width height st).1 (cell_idx width x y) =
      (phase_cell (getc st.1 (cell_idx width x y)) r).1 := by
  have hmem := mem_grid_points width height x y hx hy
  refine phase_fold_once width x y (grid_points width height) st hmem
    (nodup_grid_points width height) ?_ hlen
  intro q hq hne he
  obtain ⟨hq1, hq2⟩ := mem_grid_points_bound width height q hq
  obtain ⟨e1, e2⟩ := cell_idx_inj width q.1 q.2 x y hq1 hx he
  exact hne (by rw [Prod.ext_iff]; exact ⟨e1, e2⟩)

-- ── Per-cell phase facts ───────────────────────────────────────────

theorem phase_cell_water_band (c : Cell) (r : Nat) (hs : c.species = SPECIES_WATER)
    (h1 : TEMP_FREEZE ≤ c.rb) (h2 : c.rb < TEMP_BOIL) : phase_cell c r = (c, r) := by
  unfold phase_cell
  rw [hs]
  simp only [beq_self_eq_true, if_true]
  rw [if_neg (by omega), if_neg (by omega)]

theorem phase_cell_water_boils (c : Cell) (r : Nat) (hs : c.species = SPECIES_WATER)
    (ht : TEMP_BOIL ≤ c.rb) : ((phase_cell c r).1).species = SPECIES_STEAM := by
  unfold phase_cell
  rw [hs]
  simp only [beq_self_eq_true, if_true]
  rw [if_pos ht]

theorem length_phase_iter (width height n : Nat) (st : St) :
    ((phase_transitions width height)^[n] st).1.length = st.1.length := by
  induction n with
  | zero => rfl
  | succ n ih =>
    rw [Function.iterate_succ_apply', length_phase_transitions]
    exact ih

/-- Claim C4: boil hysteresis.  A water cell at exactly
boilPoint − hysteresisMargin (TEMP_BOIL − 6 = 19) is left entirely
unchanged by any number of phase-transition passes — it never converts
to steam and never passes through the steam state — while a water cell
at exactly TEMP_BOIL converts to steam in a single pass. -/
theorem water_boil_hysteresis :
    (∀ (width height x y n : Nat) (st : St), x < width → y < height →
      st.1.length = width * height →
      (getc st.1 (cell_idx width x y)).species = SPECIES_WATER →
      (getc st.1 (cell_idx width x y)).rb = TEMP_BOIL - 6 →
      getc ((phase_transitions width height)^[n] st).1 (cell_idx width x y) =
        getc st.1 (cell_idx width x y)) ∧
    (∀ (width height x y : Nat) (st : St), x < width → y < height →
      st.1.length = width * height →
      (getc st.1 (cell_idx width x y)).species = SPECIES_WATER →
      (getc st.1 (cell_idx width x y)).rb = TEMP_BOIL →
      (getc (phase_transitions width height st).1 (cell_idx width x y)).species =
        SPECIES_STEAM) := by
  constructor
  · intro width height x y n st hx hy hlen hs ht
    induction n with
    | zero => rfl
    | succ n ih =>
      rw [Function.iterate_succ_apply']
      have hlt : cell_idx width x y <
          ((phase_transitions width height)^[n] st).1.length := by
        rw [length_phase_iter, hlen]
        exact cell_idx_lt width height x y hx hy
      obtain ⟨r, hr⟩ := phase_at width height x y hx hy _ hlt
      rw [hr, ih]
      have hb : phase_cell (getc st.1 (cell_idx width x y)) r =
          (getc st.1 (cell_idx width x y), r) :=
        phase_cell_water_band _ r hs (by rw [ht]; decide) (by rw [ht]; decide)
      rw [hb]
  · intro width height x y st hx hy hlen hs ht
    have hlt : cell_idx width x y < st.1.length := by
      rw [hlen]
      exact cell_idx_lt width height x y hx hy
    obtain ⟨r, hr⟩ := phase_at width height x y hx hy st hlt
    rw [hr]
    exact phase_cell_water_boils _ r hs (by rw [ht])

def c4buf19 : Buf := set_cell_raw (List.replicate 9 zeroCell) 3 1 1 SPECIES_WATER 0 19 0

def c4buf25 : Buf := set_cell_raw (List.replicate 9 zeroCell) 3 1 1 SPECIES_WATER 0 25 0

theorem water_boil_hysteresis_witness :
    getc ((phase_transitions 3 3)^[4] (c4buf19, RNG_SEED)).1 (cell_idx 3 1 1) =
      getc (c4buf19, RNG_SEED).1 (cell_idx 3 1 1) ∧
    (getc (phase_transitions 3 3 (c4buf25, RNG_SEED)).1 (cell_idx 3 1 1)).species =
      SPECIES_STEAM :=
  ⟨water_boil_hysteresis.1 3 3 1 1 4 (c4buf19, RNG_SEED) (by decide) (by decide)
      (by decide) (by decide) (by decide),
   water_boil_hysteresis.2 3 3 1 1 (c4buf25, RNG_SEED) (by decide) (by decide)
      (by decide) (by decide) (by decide)⟩

theorem rand_range_bounds (lo hi r : Nat) (h : lo < hi) :
    lo ≤ (rand_range lo hi r).1 ∧ (rand_range lo hi r).1 < hi := by
  have hne : (hi - lo == 0) = false := by
    simp only [beq_eq_false_iff_ne, ne_eq, Nat.sub_eq_zero_iff_le]
    omega
  simp only [rand_range, hne, Bool.false_eq_true, if_false]
  have hm : (rand_u32 r).1 % (hi - lo) < hi - lo := Nat.mod_lt _ (by omega)
  constructor
  · omega
  · omega

theorem phase_cell_oil (c : Cell) (r : Nat) (hs : c.species = SPECIES_OIL)
    (ht : TEMP_OIL_IGNITE ≤ c.rb) :
    ((phase_cell c r).1).species = SPECIES_FIRE ∧
    FUEL_OIL_MIN ≤ ((phase_cell c r).1).ra ∧
    ((phase_cell c r).1).ra < FUEL_OIL_MAX ∧
    TEMP_FIRE_SUSTAIN ≤ ((phase_cell c r).1).rb := by
  unfold phase_cell
  rw [hs]
  simp only [Nat.reduceBEq, Bool.false_eq_true, if_false, beq_self_eq_true, if_true]
  rw [if_pos ht]
  have hb := rand_range_bounds FUEL_OIL_MIN FUEL_OIL_MAX r (by decide)
  refine ⟨rfl, hb.1, hb.2, ?_⟩
  exact le_trans (Nat.le_add_right TEMP_FIRE_SUSTAIN 30)
    (Nat.le_max_right c.rb (TEMP_FIRE_SUSTAIN + 30))

theorem phase_cell_plant (c : Cell) (r : Nat) (hs : c.species = SPECIES_PLANT)
    (ht : TEMP_PLANT_IGNITE ≤ c.rb) :
    ((phase_cell c r).1).species = SPECIES_FIRE ∧
    FUEL_PLANT_MIN ≤ ((phase_cell c r).1).ra ∧
    ((phase_cell c r).1).ra < FUEL_PLANT_MAX ∧
    TEMP_FIRE_SUSTAIN ≤ ((phase_cell c r).1).rb := by
  unfold phase_cell
  rw [hs]
  simp only [Nat.reduceBEq, Bool.false_eq_true, if_false, beq_self_eq_true, if_true]
  rw [if_pos ht]
  have hb := rand_range_bounds FUEL_PLANT_MIN FUEL_PLANT_MAX r (by decide)
  refine ⟨rfl, hb.1, hb.2, ?_⟩
  exact le_trans (Nat.le_add_right TEMP_FIRE_SUSTAIN 30)
    (Nat.le_max_right c.rb (TEMP_FIRE_SUSTAIN + 30))

theorem phase_cell_wood (c : Cell) (r : Nat) (hs : c.species = SPECIES_WOOD)
    (ht : TEMP_WOOD_IGNITE ≤ c.rb) :
    ((phase_cell c r).1).species = SPECIES_FIRE ∧
    FUEL_WOOD_MIN ≤ ((phase_cell c r).1).ra ∧
    ((phase_cell c r).1).ra < FUEL_WOOD_MAX ∧
    TEMP_FIRE_SUSTAIN ≤ ((phase_cell c r).1).rb := by
  unfold phase_cell
  rw [hs]
  simp only [Nat.reduceBEq, Bool.false_eq_true, if_false, beq_self_eq_true, if_true]
  rw [if_pos ht]
  have hb := rand_range_bounds FUEL_WOOD_MIN FUEL_WOOD_MAX r (by decide)
  refine ⟨rfl, hb.1, hb.2, ?_⟩
  exact le_trans (Nat.le_add_right TEMP_FIRE_SUSTAIN 30)
    (Nat.le_max_right c.rb (TEMP_FIRE_SUSTAIN + 30))

/-- Claim C6: combustible ignition.  During the phase-transition pass,
an oil, plant or wood cell at or above its material-specific ignition
point becomes fire at the same grid position; the new fire cell's fuel
counter lies in the material-specific range and its temperature is at
least the minimum fire sustain value. -/
theorem combustible_ignition (width height x y : Nat) (st : St)
    (hx : x < width) (hy : y < height) (hlen : st.1.length = width * height) :
    (((getc st.1 (cell_idx width x y)).species = SPECIES_OIL ∧
        TEMP_OIL_IGNITE ≤ (getc st.1 (cell_idx width x y)).rb) →
      (getc (phase_transitions width height st).1 (cell_idx width x y)).species =
          SPECIES_FIRE ∧
        FUEL_OIL_MIN ≤ (getc (phase_transitions width height st).1 (cell_idx width x y)).ra ∧
        (getc (phase_transitions width height st).1 (cell_idx width x y)).ra < FUEL_OIL_MAX ∧
        TEMP_FIRE_SUSTAIN ≤ (getc (phase_transitions width height st).1 (cell_idx width x y)).rb) ∧
    (((getc st.1 (cell_idx width x y)).species = SPECIES_PLANT ∧
        TEMP_PLANT_IGNITE ≤ (getc st.1 (cell_idx width x y)).rb) →
      (getc (phase_transitions width height st).1 (cell_idx width x y)).species =
          SPECIES_FIRE ∧
        FUEL_PLANT_MIN ≤ (getc (phase_transitions width height st).1 (cell_idx width x y)).ra ∧
        (getc (phase_transitions width height st).1 (cell_idx width x y)).ra < FUEL_PLANT_MAX ∧
        TEMP_FIRE_SUSTAIN ≤ (getc (phase_transitions width height st).1 (cell_idx width x y)).rb) ∧
    (((getc st.1 (cell_idx width x y)).species = SPECIES_WOOD ∧
        TEMP_WOOD_IGNITE ≤ (getc st.1 (cell_idx width x y)).rb) →
      (getc (phase_transitions width height st).1 (cell_idx width x y)).species =
          SPECIES_FIRE ∧
        FUEL_WOOD_MIN ≤ (getc (phase_transitions width height st).1 (cell_idx width x y)).ra ∧
        (getc (phase_transitions width height st).1 (cell_idx width x y)).ra < FUEL_WOOD_MAX ∧
        TEMP_FIRE_SUSTAIN ≤ (getc (phase_transitions width height st).1 (cell_idx width x y)).rb) := by
  have hlt : cell_idx width x y < st.1.length := by
    rw [hlen]
    exact cell_idx_lt width height x y hx hy
  obtain ⟨r, hr⟩ := phase_at width height x y hx hy st hlt
  refine ⟨fun h => ?_, fun h => ?_, fun h => ?_⟩
  · rw [hr]
    exact phase_cell_oil _ r h.1 h.2
  · rw [hr]
    exact phase_cell_plant _ r h.1 h.2
  · rw [hr]
    exact phase_cell_wood _ r h.1 h.2

def c6oil : Buf := set_cell_raw (List.replicate 9 zeroCell) 3 1 1 SPECIES_OIL 0 40 0

theorem combustible_ignition_witness :
    (getc (phase_transitions 3 3 (c6oil, RNG_SEED)).1 (cell_idx 3 1 1)).species =
        SPECIES_FIRE ∧
      FUEL_OIL_MIN ≤ (getc (phase_transitions 3 3 (c6oil, RNG_SEED)).1 (cell_idx 3 1 1)).ra ∧
      (getc (phase_transitions 3 3 (c6oil, RNG_SEED)).1 (cell_idx 3 1 1)).ra < FUEL_OIL_MAX ∧
      TEMP_FIRE_SUSTAIN ≤ (getc (phase_transitions 3 3 (c6oil, RNG_SEED)).1 (cell_idx 3 1 1)).rb :=
  (combustible_ignition 3 3 1 1 (c6oil, RNG_SEED) (by decide) (by decide)
    (by decide)).1 ⟨by decide, by decide⟩

-- ── Claim C5: heat-diffusion transfer formula ──────────────────────

theorem clamp255_eq_self (v : Int) (h1 : 0 ≤ v) (h2 : v ≤ 255) : clamp255 v = v := by
  unfold clamp255
  omega

/-- The spec's neighbor-exchange formula, written from its words:
minConductivity = min(conductivity(a.species), conductivity(b.species));
delta = (a.temp − b.temp) * minConductivity / 512 with integer division
truncating toward zero; move delta units of temperature from a to b,
clamping both results to the representable range. -/
def heat_exchange_spec (temp_a temp_b : Int) (sp_a sp_b : Nat) : Int × Int :=
  let minConductivity : Int := min ((conductivity sp_a : Int)) ((conductivity sp_b : Int))
  let delta := Int.tdiv ((temp_a - temp_b) * minConductivity) 512
  (clamp255 (temp_a - delta), clamp255 (temp_b + delta))

def c5buf : Buf := [⟨SPECIES_STONE, 0, 200, 0⟩, ⟨SPECIES_STONE, 0, 0, 0⟩]

/-- Claim C5: the per-neighbor-exchange transfer implemented by the
heat-conduction pass is exactly the specified truncating integer
formula with both results clamped, and on the concrete scenario of two
adjacent stone cells at temperatures 200 and 0 (all other cells empty)
the receiving cell is still below 30 after one full diffusion pass. -/
theorem heat_delta_formula :
    (∀ (sp_a sp_b : Nat) (running temp_b : Int),
      0 ≤ running → running ≤ 255 → 0 ≤ temp_b → temp_b ≤ 255 →
      heat_exchange ((conductivity sp_a : Int)) running temp_b sp_b =
        heat_exchange_spec running temp_b sp_a sp_b) ∧
    (getc (heat_conduction 2 1 (c5buf, RNG_SEED)).1 (cell_idx 2 1 0)).rb < 30 := by
  constructor
  · intro sp_a sp_b running temp_b h1 h2 h3 h4
    simp only [heat_exchange, heat_exchange_spec]
    split_ifs with h
    · rfl
    · have h0 : Int.tdiv ((running - temp_b) *
          min ((conductivity sp_a : Int)) ((conductivity sp_b : Int))) 512 = 0 := by
        exact not_not.1 h
      rw [h0, Int.sub_zero, Int.add_zero, clamp255_eq_self running h1 h2,
        clamp255_eq_self temp_b h3 h4]
  · decide

theorem heat_delta_formula_witness :
    heat_exchange ((conductivity SPECIES_STONE : Int)) 200 0 SPECIES_STONE =
      heat_exchange_spec 200 0 SPECIES_STONE SPECIES_STONE :=
  heat_delta_formula.1 SPECIES_STONE SPECIES_STONE 200 0 (by decide) (by decide)
    (by decide) (by decide)

-- ── Claim C7: tie-breaks route through the random source ───────────

def c7acid : Buf := set_cell_raw (set_cell_raw (set_cell_raw
  (List.replicate 9 zeroCell) 3 1 1 SPECIES_ACID 0 TEMP_AMBIENT 0)
  3 0 0 SPECIES_SAND 0 TEMP_AMBIENT 0) 3 2 2 SPECIES_SAND 0 TEMP_AMBIENT 0

def c7sand : Buf := set_cell_raw (set_cell_raw
  (List.replicate 9 zeroCell) 3 1 1 SPECIES_SAND 0 TEMP_AMBIENT 0)
  3 1 2 SPECIES_WALL 0 0 0

/-- Claim C7: no fixed scan-order tie-breaking.  The choice among
admissible candidates is a function of the random source, not of a
fixed enumeration order: for an acid cell with two dissolvable
neighbors (at offsets (-1,-1) and (1,1), the first and last of the
fixed neighborhood enumeration), there are generator states under
which each of the two neighbors is the one dissolved; and for a sand
cell whose straight-down cell is blocked with both diagonals free,
there are generator states under which each diagonal is taken.  So
neither choice is determined solely by the enumeration order. -/
theorem tie_break_via_random_source :
    ((getc (update_acid 3 3 1 1 1 (c7acid, 1)).1 (cell_idx 3 0 0)).species =
        SPECIES_EMPTY ∧
      (getc (update_acid 3 3 1 1 1 (c7acid, 1)).1 (cell_idx 3 2 2)).species =
        SPECIES_SAND) ∧
    ((getc (update_acid 3 3 1 1 1 (c7acid, 3216)).1 (cell_idx 3 0 0)).species =
        SPECIES_SAND ∧
      (getc (update_acid 3 3 1 1 1 (c7acid, 3216)).1 (cell_idx 3 2 2)).species =
        SPECIES_EMPTY) ∧
    ((getc (update_sand 3 3 1 1 1 (c7sand, 0)).1 (cell_idx 3 0 2)).species =
        SPECIES_SAND ∧
      (getc (update_sand 3 3 1 1 1 (c7sand, 1)).1 (cell_idx 3 2 2)).species =
        SPECIES_SAND) := by
  decide

-- ── Generic fold invariant ─────────────────────────────────────────

theorem foldl_inv {α ι : Type} (f : α → ι → α) (P : α → Prop) :
    ∀ (L : List ι) (a : α), (∀ i ∈ L, ∀ b, P b → P (f b i)) → P a → P (L.foldl f a)
  | [], _, _, h => h
  | i :: L, a, hs, h =>
    foldl_inv f P L (f a i) (fun j hj b hb => hs j (List.mem_cons_of_mem _ hj) b hb)
      (hs i (List.mem_cons_self _ _) a h)

-- ── in_bounds and swap lemmas ──────────────────────────────────────

theorem in_bounds_dest (width height : Nat) (x y : Int)
    (h : in_bounds width height x y = true) :
    x.toNat < width ∧ y.toNat < height ∧ (x.toNat : Int) = x ∧ (y.toNat : Int) = y := by
  simp only [in_bounds, Bool.and_eq_true, decide_eq_true_eq] at h
  omega

theorem getc_stamped_swap (buf : Buf) (width x1 y1 x2 y2 clk k : Nat)
    (hi : cell_idx width x1 y1 < buf.length) (hj : cell_idx width x2 y2 < buf.length) :
    getc (set_clock (swap_cells buf width x1 y1 x2 y2) width x2 y2 clk) k =
      if k = cell_idx width x2 y2 then
        { getc buf (cell_idx width x1 y1) with clock := clk }
      else if k = cell_idx width x1 y1 then getc buf (cell_idx width x2 y2)
      else getc buf k := by
  unfold set_clock swap_cells
  set i := cell_idx width x1 y1 with hidef
  set j := cell_idx width x2 y2 with hjdef
  have hlen1 : (setc buf i (getc buf j)).length = buf.length := length_setc _ _ _
  have hlen2 : (setc (setc buf i (getc buf j)) j (getc buf i)).length = buf.length := by
    rw [length_setc, hlen1]
  have hswapj : getc (setc (setc buf i (getc buf j)) j (getc buf i)) j = getc buf i :=
    getc_setc_eq _ _ _ (by rw [hlen1]; exact hj)
  rw [hswapj]
  by_cases hkj : k = j
  · subst hkj
    rw [if_pos rfl]
    exact getc_setc_eq _ _ _ (by rw [hlen2]; exact hj)
  · rw [if_neg hkj, getc_setc_ne _ _ _ _ (fun he => hkj he.symm),
      getc_setc_ne _ _ _ _ (fun he => hkj he.symm)]
    by_cases hki : k = i
    · subst hki
      rw [if_pos rfl]
      exact getc_setc_eq _ _ _ hi
    · rw [if_neg hki, getc_setc_ne _ _ _ _ (fun he => hki he.symm)]

theorem length_stamped_swap (buf : Buf) (width x1 y1 x2 y2 clk : Nat) :
    (set_clock (swap_cells buf width x1 y1 x2 y2) width x2 y2 clk).length =
      buf.length := by
  unfold set_clock swap_cells
  rw [length_setc, length_setc, length_setc]

theorem length_set_clock (buf : Buf) (width x y clk : Nat) :
    (set_clock buf width x y clk).length = buf.length := length_setc _ _ _

theorem getc_set_clock (buf : Buf) (width x y clk k : Nat)
    (h : cell_idx width x y < buf.length) :
    getc (set_clock buf width x y clk) k =
      if k = cell_idx width x y then { getc buf (cell_idx width x y) with clock := clk }
      else getc buf k := by
  unfold set_clock
  by_cases hk : k = cell_idx width x y
  · subst hk
    rw [if_pos rfl]
    exact getc_setc_eq _ _ _ h
  · rw [if_neg hk, getc_setc_ne _ _ _ _ (fun he => hk he.symm)]

-- ── Movement characterization ──────────────────────────────────────

/-- The result shape of a successful move: a stamped swap from (x,y) to
an in-range target (x2,y2) whose old species satisfied the move
predicate. -/
def moved_shape (width height x y clk : Nat) (pred : Nat → Bool)
    (buf buf2 : Buf) : Prop :=
  ∃ x2 y2, x2 < width ∧ y2 < height ∧ pred (get_species buf width x2 y2) = true ∧
    buf2 = set_clock (swap_cells buf width x y x2 y2) width x2 y2 clk

theorem fall_try_cases (width height x y below_y clk : Nat) (pred : Nat → Bool)
    (dx : Int) (buf buf2 : Buf)
    (h : fall_try width height x y below_y clk pred dx buf = some buf2) :
    moved_shape width height x y clk pred buf buf2 := by
  simp only [fall_try] at h
  split at h
  · split at h
    · next hb hp =>
      obtain ⟨h1, h2, _, _⟩ := in_bounds_dest _ _ _ _ hb
      refine ⟨((x : Int) + dx).toNat, below_y, h1, by simpa using h2, hp, ?_⟩
      have := Option.some.inj h
      rw [← this]
    · exact absurd h (by simp)
  · exact absurd h (by simp)

theorem liquid_try_cases (width height x y below_y clk species : Nat)
    (dx : Int) (buf buf2 : Buf)
    (h : liquid_try width height x y below_y clk species dx buf = some buf2) :
    moved_shape width height x y clk (can_displace species) buf buf2 := by
  simp only [liquid_try] at h
  split at h
  · split at h
    · next hb hp =>
      obtain ⟨h1, h2, _, _⟩ := in_bounds_dest _ _ _ _ hb
      refine ⟨((x : Int) + dx).toNat, below_y, h1, by simpa using h2, hp, ?_⟩
      have := Option.some.inj h
      rw [← this]
    · exact absurd h (by simp)
  · exact absurd h (by simp)

theorem rise_try_cases (width height x y clk : Nat) (pred : Nat → Bool)
    (dx : Int) (buf buf2 : Buf)
    (h : rise_try width height x y clk pred dx buf = some buf2) :
    moved_shape width height x y clk pred buf buf2 := by
  simp only [rise_try] at h
  split at h
  · split at h
    · next hb hp =>
      obtain ⟨h1, h2, _, _⟩ := in_bounds_dest _ _ _ _ hb
      exact ⟨((x : Int) + dx).toNat, ((y : Int) - 1).toNat, h1, h2, hp,
        (Option.some.inj h).symm⟩
    · exact absurd h (by simp)
  · exact absurd h (by simp)

theorem fall_granular_cases (width height x y clk : Nat) (pred : Nat → Bool)
    (st : St) (hx : x < width) :
    (fall_granular width height x y clk pred st).1 = st.1 ∨
    moved_shape width height x y clk pred st.1
      (fall_granular width height x y clk pred st).1 := by
  simp only [fall_granular]
  split
  · next hb =>
    split
    · next hp => exact Or.inr ⟨x, y + 1, hx, hb, hp, rfl⟩
    · split
      · next heq => exact Or.inr (fall_try_cases _ _ _ _ _ _ _ _ _ _ heq)
      · split
        · next heq => exact Or.inr (fall_try_cases _ _ _ _ _ _ _ _ _ _ heq)
        · exact Or.inl rfl
  · exact Or.inl rfl

theorem spread_go_cases (width height x y clk species : Nat) (dir : Int) :
    ∀ (rem step : Nat) (buf : Buf),
      spread_go width height x y clk species dir step rem buf = buf ∨
      moved_shape width height x y clk (can_displace species) buf
        (spread_go width height x y clk species dir step rem buf)
  | 0, _, _ => Or.inl rfl
  | rem + 1, step, buf => by
    simp only [spread_go]
    split
    · next hb =>
      split
      · next hp =>
        obtain ⟨h1, h2, _, _⟩ := in_bounds_dest _ _ _ _ hb
        exact Or.inr ⟨((x : Int) + dir * (step : Int)).toNat, y, h1,
          by simpa using h2, hp, rfl⟩
      · exact spread_go_cases width height x y clk species dir rem (step + 1) buf
    · exact Or.inl rfl

theorem liquid_lateral_cases (width height x y clk species spread : Nat)
    (buf : Buf) (r : Nat) :
    (liquid_lateral width height x y clk species spread buf r).1 = buf ∨
    moved_shape width height x y clk (can_displace species) buf
      (liquid_lateral width height x y clk species spread buf r).1 := by
  simp only [liquid_lateral]
  exact spread_go_cases width height x y clk species _ spread 1 buf

theorem update_liquid_cases (width height x y species spread clk : Nat)
    (st : St) (hx : x < width) :
    (update_liquid width height x y species spread clk st).1 = st.1 ∨
    moved_shape width height x y clk (can_displace species) st.1
      (update_liquid width height x y species spread clk st).1 := by
  simp only [update_liquid]
  split
  · next hb =>
    rw [Bool.and_eq_true] at hb
    exact Or.inr ⟨x, y + 1, hx, by simpa using hb.1, hb.2, rfl⟩
  · split
    · split
      · next heq => exact Or.inr (liquid_try_cases _ _ _ _ _ _ _ _ _ _ heq)
      · split
        · next heq => exact Or.inr (liquid_try_cases _ _ _ _ _ _ _ _ _ _ heq)
        · exact liquid_lateral_cases width height x y clk species spread st.1 _
    · exact liquid_lateral_cases width height x y clk species spread st.1 _

theorem rise_drift_cases (width height x y clk : Nat) (pred : Nat → Bool)
    (drift_chance : Nat) (st : St) (hy : y < height) :
    (((rise_drift width height x y clk pred drift_chance st).1).1 = st.1) ∨
    moved_shape width height x y clk pred st.1
      ((rise_drift width height x y clk pred drift_chance st).1).1 := by
  simp only [rise_drift]
  split
  · split
    · split
      · next hb =>
        split
        · next hp =>
          obtain ⟨h1, _, _, _⟩ := in_bounds_dest _ _ _ _ hb
          exact Or.inr ⟨((x : Int) + -1).toNat, y, h1, hy, hp, rfl⟩
        · exact Or.inl rfl
      · exact Or.inl rfl
    · split
      · next hb =>
        split
        · next hp =>
          obtain ⟨h1, _, _, _⟩ := in_bounds_dest _ _ _ _ hb
          exact Or.inr ⟨((x : Int) + 1).toNat, y, h1, hy, hp, rfl⟩
        · exact Or.inl rfl
      · exact Or.inl rfl
  · exact Or.inl rfl

theorem rise_gas_cases (width height x y clk : Nat) (pred : Nat → Bool)
    (drift_chance : Nat) (st : St) (hx : x < width) (hy : y < height) :
    (((rise_gas width height x y clk pred drift_chance st).1).1 = st.1) ∨
    moved_shape width height x y clk pred st.1
      ((rise_gas width height x y clk pred drift_chance st).1).1 := by
  simp only [rise_gas]
  split
  · next hy0 =>
    split
    · next hp => exact Or.inr ⟨x, y - 1, hx, by omega, hp, rfl⟩
    · split
      · next heq => exact Or.inr (rise_try_cases _ _ _ _ _ _ _ _ _ heq)
      · split
        · next heq => exact Or.inr (rise_try_cases _ _ _ _ _ _ _ _ _ heq)
        · exact rise_drift_cases width height x y clk pred drift_chance _ hy
  · exact rise_drift_cases width height x y clk pred drift_chance st hy

-- ── Radiate-heat frame lemmas ──────────────────────────────────────

theorem radiate_pointwise (width height x y : Nat) (amount : Int) (buf : Buf)
    (hx : x < width) (hy : y < height) (hlen : buf.length = width * height) :
    (radiate_heat width height x y amount buf).length = buf.length ∧
    (∀ k, (getc (radiate_heat width height x y amount buf) k).species =
            (getc buf k).species ∧
          (getc (radiate_heat width height x y amount buf) k).ra = (getc buf k).ra ∧
          (getc (radiate_heat width height x y amount buf) k).clock =
            (getc buf k).clock) ∧
    getc (radiate_heat width height x y amount buf) (cell_idx width x y) =
      getc buf (cell_idx width x y) := by
  have hall : ∀ d ∈ all_neighbor_offsets, ¬(d.1 = 0 ∧ d.2 = 0) := by decide
  unfold radiate_heat
  refine foldl_inv _ (fun b => b.length = buf.length ∧
    (∀ k, (getc b k).species = (getc buf k).species ∧
          (getc b k).ra = (getc buf k).ra ∧
          (getc b k).clock = (getc buf k).clock) ∧
    getc b (cell_idx width x y) = getc buf (cell_idx width x y))
    all_neighbor_offsets buf ?_ ⟨rfl, fun k => ⟨rfl, rfl, rfl⟩, rfl⟩
  intro d hd b hb
  by_cases hin : in_bounds width height ((x : Int) + d.1) ((y : Int) + d.2) = true
  · rw [if_pos hin]
    obtain ⟨hb1, hb2, hb3⟩ := hb
    obtain ⟨hn1, hn2, hn3, hn4⟩ := in_bounds_dest _ _ _ _ hin
    have hni : cell_idx width ((x : Int) + d.1).toNat ((y : Int) + d.2).toNat <
        b.length := by
      rw [hb1, hlen]
      exact cell_idx_lt _ _ _ _ hn1 hn2
    have hnc : cell_idx width ((x : Int) + d.1).toNat ((y : Int) + d.2).toNat ≠
        cell_idx width x y := by
      intro he
      obtain ⟨e1, e2⟩ := cell_idx_inj width _ _ _ _ hn1 hx he
      exact hall d hd (by omega)
    refine ⟨by rw [length_setc]; exact hb1, ?_, ?_⟩
    · intro k
      by_cases hk : k = cell_idx width ((x : Int) + d.1).toNat ((y : Int) + d.2).toNat
      · subst hk
        rw [getc_setc_eq _ _ _ hni]
        exact hb2 _
      · rw [getc_setc_ne _ _ _ _ (fun he => hk he.symm)]
        exact hb2 k
    · rw [getc_setc_ne _ _ _ _ hnc]
      exact hb3
  · rw [if_neg hin]
    exact hb

theorem toNat_min_cap (t : Nat) : (min ((t : Int) + 3) 230).toNat = min (t + 3) 230 := by
  omega

/-- Claim C9: implicit fire temperature cap.  When update_fire runs on a
fire cell that survives (fuel at least 2, temperature at least the
sustain minimum), the fire record immediately afterwards — whether it
stayed put or rose — has temperature exactly min(previous + 3, 230),
hence at most 230 even if it was above 230 before, and fuel decremented
by one. -/
theorem fire_temp_cap (width height x y clk : Nat) (st : St)
    (hx : x < width) (hy : y < height) (hlen : st.1.length = width * height)
    (hsp : (getc st.1 (cell_idx width x y)).species = SPECIES_FIRE)
    (hf : 2 ≤ (getc st.1 (cell_idx width x y)).ra)
    (ht : TEMP_FIRE_SUSTAIN ≤ (getc st.1 (cell_idx width x y)).rb) :
    ∃ x2 y2, x2 < width ∧ y2 < height ∧
      (getc (update_fire width height x y clk st).1 (cell_idx width x2 y2)).species =
        SPECIES_FIRE ∧
      (getc (update_fire width height x y clk st).1 (cell_idx width x2 y2)).ra =
        (getc st.1 (cell_idx width x y)).ra - 1 ∧
      (getc (update_fire width height x y clk st).1 (cell_idx width x2 y2)).rb =
        min ((getc st.1 (cell_idx width x y)).rb + 3) 230 ∧
      (getc (update_fire width height x y clk st).1 (cell_idx width x2 y2)).rb ≤ 230 := by
  have hi : cell_idx width x y < st.1.length := by
    rw [hlen]
    exact cell_idx_lt _ _ _ _ hx hy
  simp only [update_fire]
  rw [if_neg (by omega), if_neg (by omega)]
  set i := cell_idx width x y with hidef
  set c := getc st.1 i with hcdef
  set b1 : Buf := setc st.1 i { c with ra := c.ra - 1 } with hb1def
  set b2 : Buf := setc b1 i { getc b1 i with rb := (min ((c.rb : Int) + 3) 230).toNat }
    with hb2def
  have hlen1 : b1.length = st.1.length := length_setc _ _ _
  have hlen2 : b2.length = st.1.length := by rw [hb2def, length_setc, hlen1]
  have hg1 : getc b1 i = { c with ra := c.ra - 1 } := getc_setc_eq _ _ _ hi
  have hg2 : getc b2 i =
      { c with ra := c.ra - 1, rb := (min ((c.rb : Int) + 3) 230).toNat } := by
    rw [hb2def, getc_setc_eq _ _ _ (by rw [hlen1]; exact hi), hg1]
  have hrad := radiate_pointwise width height x y 2 b2 hx hy (by rw [hlen2, hlen])
  set b3 : Buf := radiate_heat width height x y 2 b2 with hb3def
  have hlen3 : b3.length = st.1.length := by rw [hrad.1, hlen2]
  have hg3 : getc b3 i = getc b2 i := hrad.2.2
  rcases rise_gas_cases width height x y clk
      (fun s => s == SPECIES_EMPTY || s == SPECIES_SMOKE) 77 (b3, st.2) hx hy with
    hcase | hcase
  · refine ⟨x, y, hx, hy, ?_⟩
    rw [hcase]
    show (getc b3 i).species = SPECIES_FIRE ∧ (getc b3 i).ra = c.ra - 1 ∧
      (getc b3 i).rb = min (c.rb + 3) 230 ∧ (getc b3 i).rb ≤ 230
    rw [hg3, hg2]
    refine ⟨hsp, rfl, ?_, ?_⟩
    · dsimp only
      exact toNat_min_cap c.rb
    · dsimp only
      rw [toNat_min_cap c.rb]
      omega
  · obtain ⟨x2, y2, hx2, hy2, hpred, heq⟩ := hcase
    refine ⟨x2, y2, hx2, hy2, ?_⟩
    rw [heq]
    have hj : cell_idx width x2 y2 < b3.length := by
      rw [hlen3, hlen]
      exact cell_idx_lt _ _ _ _ hx2 hy2
    have hi3 : cell_idx width x y < b3.length := by
      rw [hlen3]
      exact hi
    rw [getc_stamped_swap b3 width x y x2 y2 clk (cell_idx width x2 y2) hi3 hj,
      if_pos rfl]
    show ({ getc b3 i with clock := clk }).species = SPECIES_FIRE ∧
      ({ getc b3 i with clock := clk }).ra = c.ra - 1 ∧
      ({ getc b3 i with clock := clk }).rb = min (c.rb + 3) 230 ∧
      ({ getc b3 i with clock := clk }).rb ≤ 230
    rw [hg3, hg2]
    refine ⟨hsp, rfl, ?_, ?_⟩
    · dsimp only
      exact toNat_min_cap c.rb
    · dsimp only
      rw [toNat_min_cap c.rb]
      omega

def c9buf : Buf := set_cell_raw (List.replicate 25 zeroCell) 5 2 2 SPECIES_FIRE 60 240 0

theorem fire_temp_cap_witness :
    ∃ x2 y2, x2 < 5 ∧ y2 < 5 ∧
      (getc (update_fire 5 5 2 2 1 (c9buf, RNG_SEED)).1 (cell_idx 5 x2 y2)).species =
        SPECIES_FIRE ∧
      (getc (update_fire 5 5 2 2 1 (c9buf, RNG_SEED)).1 (cell_idx 5 x2 y2)).ra =
        (getc c9buf (cell_idx 5 2 2)).ra - 1 ∧
      (getc (update_fire 5 5 2 2 1 (c9buf, RNG_SEED)).1 (cell_idx 5 x2 y2)).rb =
        min ((getc c9buf (cell_idx 5 2 2)).rb + 3) 230 ∧
      (getc (update_fire 5 5 2 2 1 (c9buf, RNG_SEED)).1 (cell_idx 5 x2 y2)).rb ≤ 230 :=
  fire_temp_cap 5 5 2 2 1 (c9buf, RNG_SEED) (by decide) (by decide) (by decide)
    (by decide) (by decide) (by decide)

-- ── Species counting ───────────────────────────────────────────────

def countSp (sp : Nat) (buf : Buf) : Nat := buf.countP (fun c => c.species == sp)

theorem countP_set (p : Cell → Bool) : ∀ (l : Buf) (i : Nat) (a : Cell),
    i < l.length →
    (l.set i a).countP p + (if p (getc l i) = true then 1 else 0) =
      l.countP p + (if p a = true then 1 else 0)
  | [], _, _, h => absurd h (by simp)
  | b :: t, 0, a, _ => by
    simp only [List.set_cons_zero, List.countP_cons, getc, List.getD_cons_zero]
    omega
  | b :: t, i + 1, a, h => by
    simp only [List.set_cons_succ, List.countP_cons, getc, List.getD_cons_succ]
    have ih := countP_set p t i a (by simpa using h)
    simp only [getc] at ih
    omega

theorem countSp_setc_same_species (sp : Nat) (buf : Buf) (i : Nat) (c : Cell)
    (hc : c.species = (getc buf i).species) :
    countSp sp (setc buf i c) = countSp sp buf := by
  by_cases h : i < buf.length
  · have e := countP_set (fun c => c.species == sp) buf i c h
    have hpe : (c.species == sp) = ((getc buf i).species == sp) := by rw [hc]
    unfold countSp setc
    simp only [hpe] at e
    omega
  · unfold setc
    rw [List.set_eq_of_length_le (by omega)]

theorem countSp_set_clock (sp : Nat) (buf : Buf) (width x y clk : Nat) :
    countSp sp (set_clock buf width x y clk) = countSp sp buf := by
  unfold set_clock
  exact countSp_setc_same_species sp buf _ _ rfl

theorem countSp_stamped_swap (sp : Nat) (buf : Buf) (width x1 y1 x2 y2 clk : Nat)
    (hi : cell_idx width x1 y1 < buf.length)
    (hj : cell_idx width x2 y2 < buf.length) :
    countSp sp (set_clock (swap_cells buf width x1 y1 x2 y2) width x2 y2 clk) =
      countSp sp buf := by
  have hswap : countSp sp (swap_cells buf width x1 y1 x2 y2) = countSp sp buf := by
    simp only [swap_cells, countSp]
    set i := cell_idx width x1 y1
    set j := cell_idx width x2 y2
    have e1 := countP_set (fun c => c.species == sp) buf i (getc buf j) hi
    have hlen1 : (setc buf i (getc buf j)).length = buf.length := length_setc _ _ _
    have e2 := countP_set (fun c => c.species == sp) (setc buf i (getc buf j)) j
      (getc buf i) (by rw [hlen1]; exact hj)
    have hgj : getc (setc buf i (getc buf j)) j = getc buf j := by
      by_cases hij : i = j
      · rw [← hij]
        rw [getc_setc_eq _ _ _ hi, hij]
      · exact getc_setc_ne _ _ _ _ hij
    rw [hgj] at e2
    unfold setc at e1 e2 ⊢
    omega
  calc countSp sp (set_clock (swap_cells buf width x1 y1 x2 y2) width x2 y2 clk)
      = countSp sp (swap_cells buf width x1 y1 x2 y2) := countSp_set_clock _ _ _ _ _ _
    _ = countSp sp buf := hswap

-- ── Bounded species restriction ────────────────────────────────────

/-- Every in-range cell's species satisfies P. -/
abbrev species_ok (P : Nat → Bool) (buf : Buf) : Prop :=
  ∀ k, k < buf.length → P (getc buf k).species = true

theorem species_ok_set_clock (P : Nat → Bool) (buf : Buf) (width x y clk : Nat)
    (h : species_ok P buf) : species_ok P (set_clock buf width x y clk) := by
  intro k hk
  rw [length_set_clock] at hk
  by_cases hlt : cell_idx width x y < buf.length
  · rw [getc_set_clock _ _ _ _ _ _ hlt]
    split_ifs with he
    · subst he
      exact h _ hlt
    · exact h k hk
  · unfold set_clock
    rw [setc_oob _ _ _ (by omega)]
    exact h k hk

theorem species_ok_stamped_swap (P : Nat → Bool) (buf : Buf)
    (width x1 y1 x2 y2 clk : Nat)
    (hi : cell_idx width x1 y1 < buf.length)
    (hj : cell_idx width x2 y2 < buf.length)
    (h : species_ok P buf) :
    species_ok P (set_clock (swap_cells buf width x1 y1 x2 y2) width x2 y2 clk) := by
  intro k hk
  rw [length_stamped_swap] at hk
  rw [getc_stamped_swap _ _ _ _ _ _ _ _ hi hj]
  split_ifs with h1 h2
  · exact h _ hi
  · exact h _ hj
  · exact h k hk

-- ── Heat pass only writes temperatures ─────────────────────────────

/-- b1 agrees with b2 on length and on species, ra and clock of every
cell (only rb may differ). -/
def same_sac (b1 b2 : Buf) : Prop :=
  b1.length = b2.length ∧
  ∀ k, (getc b1 k).species = (getc b2 k).species ∧
       (getc b1 k).ra = (getc b2 k).ra ∧
       (getc b1 k).clock = (getc b2 k).clock

theorem same_sac_refl (b : Buf) : same_sac b b := ⟨rfl, fun _ => ⟨rfl, rfl, rfl⟩⟩

theorem same_sac_trans {b1 b2 b3 : Buf} (h1 : same_sac b1 b2) (h2 : same_sac b2 b3) :
    same_sac b1 b3 :=
  ⟨h1.1.trans h2.1, fun k =>
    ⟨(h1.2 k).1.trans (h2.2 k).1, (h1.2 k).2.1.trans (h2.2 k).2.1,
     (h1.2 k).2.2.trans (h2.2 k).2.2⟩⟩

theorem same_sac_setc_rb (buf : Buf) (i t : Nat) :
    same_sac (setc buf i { getc buf i with rb := t }) buf := by
  refine ⟨length_setc _ _ _, fun k => ?_⟩
  by_cases hk : k = i
  · subst hk
    by_cases hlt : k < buf.length
    · rw [getc_setc_eq _ _ _ hlt]
      exact ⟨rfl, rfl, rfl⟩
    · rw [setc_oob _ _ _ (by omega)]
      exact ⟨rfl, rfl, rfl⟩
  · rw [getc_setc_ne _ _ _ _ (fun he => hk he.symm)]
    exact ⟨rfl, rfl, rfl⟩

theorem heat_neighbor_sac (width height x y : Nat) (cond_a : Int)
    (acc : Int × Buf) (d : Int × Int) :
    same_sac (heat_neighbor_step width height x y cond_a acc d).2 acc.2 := by
  simp only [heat_neighbor_step]
  split
  · exact same_sac_setc_rb _ _ _
  · exact same_sac_refl _

theorem heat_cell_sac (width height x y : Nat) (st : St) :
    same_sac (heat_cell width height x y st).1 st.1 := by
  have hfold : ∀ (L : List (Int × Int)) (acc : Int × Buf), same_sac acc.2 st.1 →
      same_sac (L.foldl (heat_neighbor_step width height x y
        ((conductivity (getc st.1 (cell_idx width x y)).species : Int))) acc).2 st.1 := by
    intro L
    induction L with
    | nil => intro acc h; exact h
    | cons d L ih =>
      intro acc h
      exact ih _ (same_sac_trans (heat_neighbor_sac width height x y _ acc d) h)
  simp only [heat_cell]
  have h1 := hfold heat_neighbors ((((getc st.1 (cell_idx width x y)).rb : Int)), st.1)
    (same_sac_refl _)
  set res := heat_neighbors.foldl (heat_neighbor_step width height x y
    ((conductivity (getc st.1 (cell_idx width x y)).species : Int)))
    ((((getc st.1 (cell_idx width x y)).rb : Int)), st.1) with hres
  have h2 : same_sac (setc res.2 (cell_idx width x y)
      { getc res.2 (cell_idx width x y) with rb := res.1.toNat }) st.1 :=
    same_sac_trans (same_sac_setc_rb _ _ _) h1
  split
  · split
    · split
      · exact same_sac_trans (same_sac_setc_rb _ _ _) h2
      · split
        · exact same_sac_trans (same_sac_setc_rb _ _ _) h2
        · exact h2
    · exact h2
  · exact h2

theorem heat_conduction_sac (width height : Nat) (st : St) :
    same_sac (heat_conduction width height st).1 st.1 := by
  unfold heat_conduction
  refine foldl_inv _ (fun s => same_sac s.1 st.1) _ st ?_ (same_sac_refl _)
  intro q _ s hs
  exact same_sac_trans (heat_cell_sac width height q.1 q.2 s) hs

theorem countP_pointwise (p : Cell → Bool) : ∀ (l1 l2 : Buf),
    l1.length = l2.length →
    (∀ k, k < l1.length → p (getc l1 k) = p (getc l2 k)) →
    l1.countP p = l2.countP p
  | [], [], _, _ => rfl
  | [], _ :: _, h, _ => absurd h (by simp)
  | _ :: _, [], h, _ => absurd h (by simp)
  | a :: t1, b :: t2, h, hp => by
    simp only [List.countP_cons]
    have h0 := hp 0 (by simp)
    simp only [getc, List.getD_cons_zero] at h0
    have ht := countP_pointwise p t1 t2 (by simpa using h)
      (fun k hk => by
        have := hp (k + 1) (by simpa using hk)
        simpa only [getc, List.getD_cons_succ] using this)
    rw [ht, h0]

theorem countSp_of_same_sac (sp : Nat) {b1 b2 : Buf} (h : same_sac b1 b2) :
    countSp sp b1 = countSp sp b2 :=
  countP_pointwise _ b1 b2 h.1 (fun k _ => by rw [(h.2 k).1])

theorem species_ok_of_same_sac (P : Nat → Bool) {b1 b2 : Buf} (h : same_sac b1 b2)
    (hok : species_ok P b2) : species_ok P b1 := by
  intro k hk
  rw [(h.2 k).1]
  exact hok k (h.1 ▸ hk)

-- ── Claim C2 machinery: restricted worlds ──────────────────────────

/-- The non-transient species set of claim C2. -/
def ok5 (s : Nat) : Bool :=
  s == SPECIES_EMPTY || s == SPECIES_SAND || s == SPECIES_WATER ||
    s == SPECIES_STONE || s == SPECIES_WALL

/-- No in-range cell's temperature is at a phase-transition threshold:
water strictly inside [freeze, boil), stone strictly below melt. -/
abbrev phase_safe5 (buf : Buf) : Prop :=
  ∀ k, k < buf.length →
    ((getc buf k).species = SPECIES_WATER →
      TEMP_FREEZE ≤ (getc buf k).rb ∧ (getc buf k).rb < TEMP_BOIL) ∧
    ((getc buf k).species = SPECIES_STONE → (getc buf k).rb < TEMP_STONE_MELT)

theorem phase_cell_id5 (c : Cell) (r : Nat) (hok : ok5 c.species = true)
    (hw : c.species = SPECIES_WATER → TEMP_FREEZE ≤ c.rb ∧ c.rb < TEMP_BOIL)
    (hs : c.species = SPECIES_STONE → c.rb < TEMP_STONE_MELT) :
    phase_cell c r = (c, r) := by
  have h5 : c.species = 0 ∨ c.species = 1 ∨ c.species = 2 ∨ c.species = 9 ∨
      c.species = 4 := by
    simp only [ok5, Bool.or_eq_true, beq_iff_eq, SPECIES_EMPTY, SPECIES_SAND,
      SPECIES_WATER, SPECIES_STONE, SPECIES_WALL] at hok
    tauto
  rcases h5 with h | h | h | h | h
  · simp [phase_cell, h, SPECIES_WATER, SPECIES_ICE, SPECIES_STEAM, SPECIES_STONE, SPECIES_LAVA, SPECIES_OIL, SPECIES_PLANT, SPECIES_WOOD]
  · simp [phase_cell, h, SPECIES_WATER, SPECIES_ICE, SPECIES_STEAM, SPECIES_STONE, SPECIES_LAVA, SPECIES_OIL, SPECIES_PLANT, SPECIES_WOOD]
  · have h1 := hw (h.trans rfl)
    simp only [phase_cell, h, SPECIES_WATER, SPECIES_ICE, SPECIES_STEAM, SPECIES_STONE, SPECIES_LAVA, SPECIES_OIL, SPECIES_PLANT, SPECIES_WOOD, Nat.reduceBEq, Bool.false_eq_true, if_false,
      beq_self_eq_true, if_true]
    rw [if_neg (by omega), if_neg (by omega)]
  · have h1 := hs (h.trans rfl)
    simp only [phase_cell, h, SPECIES_WATER, SPECIES_ICE, SPECIES_STEAM, SPECIES_STONE, SPECIES_LAVA, SPECIES_OIL, SPECIES_PLANT, SPECIES_WOOD, Nat.reduceBEq, Bool.false_eq_true, if_false,
      beq_self_eq_true, if_true]
    rw [if_neg (by omega)]
  · simp [phase_cell, h, SPECIES_WATER, SPECIES_ICE, SPECIES_STEAM, SPECIES_STONE, SPECIES_LAVA, SPECIES_OIL, SPECIES_PLANT, SPECIES_WOOD]

theorem phase_step_id5 (width : Nat) (st : St) (q : Nat × Nat)
    (hok : species_ok ok5 st.1) (hsafe : phase_safe5 st.1) :
    phase_step width st q = st := by
  simp only [phase_step]
  by_cases hlt : cell_idx width q.1 q.2 < st.1.length
  · rw [phase_cell_id5 (getc st.1 (cell_idx width q.1 q.2)) st.2 (hok _ hlt)
      ((hsafe _ hlt).1) ((hsafe _ hlt).2)]
    dsimp only
    rw [setc_getc_self]
  · have hz : getc st.1 (cell_idx width q.1 q.2) = zeroCell := getc_oob _ _ (by omega)
    rw [hz]
    have hpz : phase_cell zeroCell st.2 = (zeroCell, st.2) := by
      simp [phase_cell, zeroCell, SPECIES_WATER, SPECIES_ICE, SPECIES_STEAM, SPECIES_STONE, SPECIES_LAVA, SPECIES_OIL, SPECIES_PLANT, SPECIES_WOOD]
    rw [hpz]
    dsimp only
    rw [setc_oob _ _ _ (by omega)]

theorem phase_transitions_id5 (width height : Nat) (st : St)
    (hok : species_ok ok5 st.1) (hsafe : phase_safe5 st.1) :
    phase_transitions width height st = st := by
  unfold phase_transitions
  refine foldl_inv _ (fun s => s = st) _ st ?_ rfl
  intro q _ s hs
  rw [hs]
  exact phase_step_id5 width st q hok hsafe

-- ── Claim C2 machinery: the movement scan conserves counts ─────────

theorem inv5_step (width height x y clk : Nat) (C : Nat → Nat) (pred : Nat → Bool)
    (b1 b2 : Buf) (hx : x < width) (hy : y < height)
    (h1 : b1.length = width * height) (h2 : species_ok ok5 b1)
    (h3 : ∀ sp, countSp sp b1 = C sp)
    (hmv : b2 = b1 ∨ moved_shape width height x y clk pred b1 b2) :
    b2.length = width * height ∧ species_ok ok5 b2 ∧
      ∀ sp, countSp sp b2 = C sp := by
  rcases hmv with rfl | ⟨x2, y2, hx2, hy2, _, heq⟩
  · exact ⟨h1, h2, h3⟩
  · subst heq
    have hi : cell_idx width x y < b1.length := by
      rw [h1]
      exact cell_idx_lt _ _ _ _ hx hy
    have hj : cell_idx width x2 y2 < b1.length := by
      rw [h1]
      exact cell_idx_lt _ _ _ _ hx2 hy2
    refine ⟨by rw [length_stamped_swap]; exact h1,
      species_ok_stamped_swap _ _ _ _ _ _ _ _ hi hj h2, fun sp => ?_⟩
    rw [countSp_stamped_swap sp b1 _ _ _ _ _ _ hi hj]
    exact h3 sp

theorem scan_cell_inv5 (width height clk x y : Nat) (C : Nat → Nat) (st : St)
    (hx : x < width) (hy : y < height)
    (hlen : st.1.length = width * height) (hok : species_ok ok5 st.1)
    (hcnt : ∀ sp, countSp sp st.1 = C sp) :
    (scan_cell width height clk x y st).1.length = width * height ∧
    species_ok ok5 (scan_cell width height clk x y st).1 ∧
    ∀ sp, countSp sp (scan_cell width height clk x y st).1 = C sp := by
  have hi : cell_idx width x y < st.1.length := by
    rw [hlen]
    exact cell_idx_lt _ _ _ _ hx hy
  simp only [scan_cell]
  split
  · exact ⟨hlen, hok, hcnt⟩
  · have hlen1 : (set_clock st.1 width x y clk).length = width * height := by
      rw [length_set_clock]
      exact hlen
    have hok1 : species_ok ok5 (set_clock st.1 width x y clk) :=
      species_ok_set_clock _ _ _ _ _ _ hok
    have hcnt1 : ∀ sp, countSp sp (set_clock st.1 width x y clk) = C sp := by
      intro sp
      rw [countSp_set_clock]
      exact hcnt sp
    have h5 : (getc st.1 (cell_idx width x y)).species = 0 ∨
        (getc st.1 (cell_idx width x y)).species = 1 ∨
        (getc st.1 (cell_idx width x y)).species = 2 ∨
        (getc st.1 (cell_idx width x y)).species = 9 ∨
        (getc st.1 (cell_idx width x y)).species = 4 := by
      have := hok _ hi
      simp only [ok5, Bool.or_eq_true, beq_iff_eq, SPECIES_EMPTY, SPECIES_SAND,
        SPECIES_WATER, SPECIES_STONE, SPECIES_WALL] at this
      tauto
    rcases h5 with h | h | h | h | h
    all_goals simp only [scan_dispatch, h, SPECIES_SAND, SPECIES_WATER,
      SPECIES_OIL, SPECIES_FIRE, SPECIES_PLANT, SPECIES_STEAM, SPECIES_LAVA,
      SPECIES_STONE, SPECIES_SMOKE, SPECIES_ACID, Nat.reduceBEq,
      Bool.false_eq_true, if_false, beq_self_eq_true, if_true]
    · exact ⟨hlen1, hok1, hcnt1⟩
    · exact inv5_step width height x y clk C _ _ _ hx hy hlen1 hok1 hcnt1
        (fall_granular_cases width height x y clk _ (set_clock st.1 width x y clk, st.2) hx)
    · exact inv5_step width height x y clk C _ _ _ hx hy hlen1 hok1 hcnt1
        (update_liquid_cases width height x y SPECIES_WATER 2 clk
          (set_clock st.1 width x y clk, st.2) hx)
    · exact inv5_step width height x y clk C _ _ _ hx hy hlen1 hok1 hcnt1
        (fall_granular_cases width height x y clk _ (set_clock st.1 width x y clk, st.2) hx)
    · exact ⟨hlen1, hok1, hcnt1⟩

theorem row_scan_inv5 (width height clk y : Nat) (C : Nat → Nat) (st : St)
    (hy : y < height)
    (hlen : st.1.length = width * height) (hok : species_ok ok5 st.1)
    (hcnt : ∀ sp, countSp sp st.1 = C sp) :
    (row_scan width height clk y st).1.length = width * height ∧
    species_ok ok5 (row_scan width height clk y st).1 ∧
    ∀ sp, countSp sp (row_scan width height clk y st).1 = C sp := by
  simp only [row_scan]
  refine foldl_inv _ (fun s : St => s.1.length = width * height ∧
    species_ok ok5 s.1 ∧ ∀ sp, countSp sp s.1 = C sp) (List.range width)
    (st.1, (rand_bool st.2).2) ?_ ⟨hlen, hok, hcnt⟩
  intro i hi s hs
  have hiw : i < width := List.mem_range.1 hi
  exact scan_cell_inv5 width height clk _ y C s (by split <;> omega) hy hs.1 hs.2.1 hs.2.2

theorem tick_scan_inv5 (width height clk : Nat) (C : Nat → Nat) (st : St)
    (hlen : st.1.length = width * height) (hok : species_ok ok5 st.1)
    (hcnt : ∀ sp, countSp sp st.1 = C sp) :
    (tick_scan width height clk st).1.length = width * height ∧
    species_ok ok5 (tick_scan width height clk st).1 ∧
    ∀ sp, countSp sp (tick_scan width height clk st).1 = C sp := by
  unfold tick_scan
  refine foldl_inv _ (fun s : St => s.1.length = width * height ∧
    species_ok ok5 s.1 ∧ ∀ sp, countSp sp s.1 = C sp) _ st ?_ ⟨hlen, hok, hcnt⟩
  intro y hy s hs
  have hyh : y < height := List.mem_range.1 (List.mem_reverse.1 hy)
  exact row_scan_inv5 width height clk y C s hyh hs.1 hs.2.1 hs.2.2

theorem tick_inv5 (w : World)
    (hlen : w.cells.length = w.width * w.height)
    (hok : species_ok ok5 w.cells)
    (hsafe : phase_safe5 (heat_conduction w.width w.height (w.cells, w.rng)).1) :
    w.tick.cells.length = w.width * w.height ∧
    species_ok ok5 w.tick.cells ∧
    ∀ sp, countSp sp w.tick.cells = countSp sp w.cells := by
  have hsac := heat_conduction_sac w.width w.height (w.cells, w.rng)
  have hlen1 : (heat_conduction w.width w.height (w.cells, w.rng)).1.length =
      w.width * w.height := by
    rw [hsac.1]
    exact hlen
  have hok1 : species_ok ok5 (heat_conduction w.width w.height (w.cells, w.rng)).1 :=
    species_ok_of_same_sac _ hsac hok
  have hcnt1 : ∀ sp, countSp sp (heat_conduction w.width w.height (w.cells, w.rng)).1 =
      countSp sp w.cells := fun sp => countSp_of_same_sac sp hsac
  have hid := phase_transitions_id5 w.width w.height _ hok1 hsafe
  show (World.tick w).cells.length = _ ∧ _
  simp only [World.tick, hid]
  exact tick_scan_inv5 w.width w.height _ (fun sp => countSp sp w.cells) _
    hlen1 hok1 hcnt1

theorem tickN_inv5 (w0 : World)
    (hlen : w0.cells.length = w0.width * w0.height)
    (hok : species_ok ok5 w0.cells) :
    ∀ N, (∀ k, k < N →
        phase_safe5 (heat_conduction (World.tick^[k] w0).width
          (World.tick^[k] w0).height
          ((World.tick^[k] w0).cells, (World.tick^[k] w0).rng)).1) →
      (World.tick^[N] w0).width = w0.width ∧
      (World.tick^[N] w0).height = w0.height ∧
      (World.tick^[N] w0).cells.length = w0.width * w0.height ∧
      species_ok ok5 (World.tick^[N] w0).cells ∧
      ∀ sp, countSp sp (World.tick^[N] w0).cells = countSp sp w0.cells
  | 0, _ => ⟨rfl, rfl, hlen, hok, fun _ => rfl⟩
  | N + 1, hsafe => by
    obtain ⟨hw, hh, hl, ho, hc⟩ :=
      tickN_inv5 w0 hlen hok N (fun k hk => hsafe k (by omega))
    rw [Function.iterate_succ_apply']
    have hl2 : (World.tick^[N] w0).cells.length =
        (World.tick^[N] w0).width * (World.tick^[N] w0).height := by
      rw [hw, hh]
      exact hl
    have ht := tick_inv5 (World.tick^[N] w0) hl2 ho (hsafe N (by omega))
    refine ⟨hw, hh, ?_, ht.2.1, fun sp => (ht.2.2 sp).trans (hc sp)⟩
    rw [ht.1, hw, hh]

/-- Claim C2: mass conservation.  For a grid whose border cells are all
wall and whose cells contain only the species empty, sand, water, stone
and wall, any number of ticks during which no cell's temperature sits
at a phase-transition threshold when the phase pass runs (water in
[freeze, boil), stone below melt, checked on the post-heat-pass state
of each tick) leaves the per-species counts of sand, water, stone and
wall unchanged. -/
theorem mass_conservation (w0 : World) (N : Nat)
    (hlen : w0.cells.length = w0.width * w0.height)
    (hborder : ∀ x, x < w0.width → ∀ y, y < w0.height →
      (x = 0 ∨ y = 0 ∨ x + 1 = w0.width ∨ y + 1 = w0.height) →
      (getc w0.cells (cell_idx w0.width x y)).species = SPECIES_WALL)
    (hok : species_ok ok5 w0.cells)
    (hsafe : ∀ k, k < N →
      phase_safe5 (heat_conduction (World.tick^[k] w0).width
        (World.tick^[k] w0).height
        ((World.tick^[k] w0).cells, (World.tick^[k] w0).rng)).1) :
    countSp SPECIES_SAND (World.tick^[N] w0).cells = countSp SPECIES_SAND w0.cells ∧
    countSp SPECIES_WATER (World.tick^[N] w0).cells = countSp SPECIES_WATER w0.cells ∧
    countSp SPECIES_STONE (World.tick^[N] w0).cells = countSp SPECIES_STONE w0.cells ∧
    countSp SPECIES_WALL (World.tick^[N] w0).cells = countSp SPECIES_WALL w0.cells := by
  have h := tickN_inv5 w0 hlen hok N hsafe
  exact ⟨h.2.2.2.2 _, h.2.2.2.2 _, h.2.2.2.2 _, h.2.2.2.2 _⟩

def c2world : World :=
  { width := 4, height := 4,
    cells :=
      [⟨4,0,0,0⟩, ⟨4,0,0,0⟩, ⟨4,0,0,0⟩, ⟨4,0,0,0⟩,
       ⟨4,0,0,0⟩, ⟨1,0,12,0⟩, ⟨2,0,12,0⟩, ⟨4,0,0,0⟩,
       ⟨4,0,0,0⟩, ⟨9,0,12,0⟩, ⟨0,0,0,0⟩, ⟨4,0,0,0⟩,
       ⟨4,0,0,0⟩, ⟨4,0,0,0⟩, ⟨4,0,0,0⟩, ⟨4,0,0,0⟩],
    clock := 0, rng := RNG_SEED }

set_option maxRecDepth 8192 in
theorem mass_conservation_witness :
    countSp SPECIES_SAND (World.tick^[2] c2world).cells =
      countSp SPECIES_SAND c2world.cells ∧
    countSp SPECIES_WATER (World.tick^[2] c2world).cells =
      countSp SPECIES_WATER c2world.cells ∧
    countSp SPECIES_STONE (World.tick^[2] c2world).cells =
      countSp SPECIES_STONE c2world.cells ∧
    countSp SPECIES_WALL (World.tick^[2] c2world).cells =
      countSp SPECIES_WALL c2world.cells :=
  mass_conservation c2world 2 (by decide) (by decide) (by decide) (by decide)

-- ── Claim C8 machinery: fire worlds ────────────────────────────────

/-- The species reachable from a fire-plus-inert world: empty, wall,
smoke, fire. -/
def allowed8 (s : Nat) : Bool :=
  s == SPECIES_EMPTY || s == SPECIES_WALL || s == SPECIES_SMOKE ||
    s == SPECIES_FIRE

/-- Mid-scan fire invariant: all species allowed; every fire has fuel at
least 1, bounded by B - 1 once stamped with the current clock and by B
before. -/
def fire_mid (B clk : Nat) (buf : Buf) : Prop :=
  ∀ k, k < buf.length →
    allowed8 (getc buf k).species = true ∧
    ((getc buf k).species = SPECIES_FIRE →
      1 ≤ (getc buf k).ra ∧
      ((getc buf k).clock = clk → (getc buf k).ra + 1 ≤ B) ∧
      ((getc buf k).clock ≠ clk → (getc buf k).ra ≤ B))

/-- All fire cells inside the region R are stamped with clk. -/
def fires_stamped (clk : Nat) (buf : Buf) (R : Nat → Prop) : Prop :=
  ∀ k, k < buf.length → R k → (getc buf k).species = SPECIES_FIRE →
    (getc buf k).clock = clk

theorem fires_stamped_mono (clk : Nat) (buf : Buf) (R R2 : Nat → Prop)
    (h : fires_stamped clk buf R) (himp : ∀ k, k < buf.length → R2 k → R k) :
    fires_stamped clk buf R2 :=
  fun k hk hr => h k hk (himp k hk hr)

theorem foldl_ind {α ι : Type} (f : α → ι → α) (Q : List ι → α → Prop) :
    ∀ (L done : List ι) (a : α),
      Q done a →
      (∀ d i a2, i ∈ L → Q d a2 → Q (d ++ [i]) (f a2 i)) →
      Q (done ++ L) (L.foldl f a)
  | [], done, a, h, _ => by simpa using h
  | i :: L, done, a, h, hstep => by
    have h1 : Q (done ++ [i]) (f a i) := hstep done i a (List.mem_cons_self _ _) h
    have h2 := foldl_ind f Q L (done ++ [i]) (f a i) h1
      (fun d j a2 hj hq => hstep d j a2 (List.mem_cons_of_mem _ hj) hq)
    simpa [List.append_assoc] using h2

theorem fire_of_same_sac (B clk : Nat) (R : Nat → Prop) {b1 b2 : Buf}
    (h : same_sac b1 b2) (hmid : fire_mid B clk b2) (hst : fires_stamped clk b2 R) :
    fire_mid B clk b1 ∧ fires_stamped clk b1 R := by
  constructor
  · intro k hk
    have hk2 : k < b2.length := h.1 ▸ hk
    obtain ⟨hs, hra, hcl⟩ := h.2 k
    rw [hs, hra, hcl]
    exact hmid k hk2
  · intro k hk hr
    have hk2 : k < b2.length := h.1 ▸ hk
    obtain ⟨hs, _, hcl⟩ := h.2 k
    rw [hs, hcl]
    exact hst k hk2 hr

theorem fire_setc (B clk : Nat) (R : Nat → Prop) (buf : Buf) (i : Nat) (c : Cell)
    (hmid : fire_mid B clk buf) (hst : fires_stamped clk buf R)
    (ha : allowed8 c.species = true)
    (hf : c.species = SPECIES_FIRE → 1 ≤ c.ra ∧
      (c.clock = clk → c.ra + 1 ≤ B) ∧ (c.clock ≠ clk → c.ra ≤ B))
    (hsf : c.species = SPECIES_FIRE → c.clock = clk) :
    fire_mid B clk (setc buf i c) ∧ fires_stamped clk (setc buf i c) R := by
  constructor
  · intro k hk
    rw [length_setc] at hk
    by_cases hki : k = i
    · subst hki
      by_cases hlt : k < buf.length
      · rw [getc_setc_eq _ _ _ hlt]
        exact ⟨ha, hf⟩
      · omega
    · rw [getc_setc_ne _ _ _ _ (fun he => hki he.symm)]
      exact hmid k hk
  · intro k hk hr
    rw [length_setc] at hk
    by_cases hki : k = i
    · subst hki
      by_cases hlt : k < buf.length
      · rw [getc_setc_eq _ _ _ hlt]
        exact fun hfi => hsf hfi
      · omega
    · rw [getc_setc_ne _ _ _ _ (fun he => hki he.symm)]
      exact hst k hk hr

theorem fire_stamped_swap (B clk : Nat) (R : Nat → Prop) (buf : Buf)
    (width x1 y1 x2 y2 : Nat)
    (hi : cell_idx width x1 y1 < buf.length)
    (hj : cell_idx width x2 y2 < buf.length)
    (hmid : fire_mid B clk buf) (hst : fires_stamped clk buf R)
    (hmv : (getc buf (cell_idx width x1 y1)).species = SPECIES_FIRE →
      (getc buf (cell_idx width x1 y1)).ra + 1 ≤ B)
    (hin : ¬ (getc buf (cell_idx width x2 y2)).species = SPECIES_FIRE) :
    fire_mid B clk (set_clock (swap_cells buf width x1 y1 x2 y2) width x2 y2 clk) ∧
    fires_stamped clk (set_clock (swap_cells buf width x1 y1 x2 y2) width x2 y2 clk) R := by
  constructor
  · intro k hk
    rw [length_stamped_swap] at hk
    rw [getc_stamped_swap _ _ _ _ _ _ _ _ hi hj]
    split_ifs with h1 h2
    · refine ⟨(hmid _ hi).1, fun hfi => ?_⟩
      refine ⟨((hmid _ hi).2 hfi).1, fun _ => hmv hfi, fun hne => absurd rfl hne⟩
    · refine ⟨(hmid _ hj).1, fun hfi => absurd hfi hin⟩
    · exact hmid k hk
  · intro k hk hr
    rw [length_stamped_swap] at hk
    rw [getc_stamped_swap _ _ _ _ _ _ _ _ hi hj]
    split_ifs with h1 h2
    · exact fun _ => rfl
    · exact fun hfi => absurd hfi hin
    · exact hst k hk hr

theorem phase_cell_id8 (c : Cell) (r : Nat) (hok : allowed8 c.species = true) :
    phase_cell c r = (c, r) := by
  have h4 : c.species = 0 ∨ c.species = 4 ∨ c.species = 11 ∨ c.species = 5 := by
    simp only [allowed8, Bool.or_eq_true, beq_iff_eq, SPECIES_EMPTY, SPECIES_WALL,
      SPECIES_SMOKE, SPECIES_FIRE] at hok
    tauto
  rcases h4 with h | h | h | h <;>
    simp [phase_cell, h, SPECIES_WATER, SPECIES_ICE, SPECIES_STEAM, SPECIES_STONE,
      SPECIES_LAVA, SPECIES_OIL, SPECIES_PLANT, SPECIES_WOOD]

theorem phase_step_id8 (width : Nat) (st : St) (q : Nat × Nat)
    (hok : species_ok allowed8 st.1) :
    phase_step width st q = st := by
  simp only [phase_step]
  by_cases hlt : cell_idx width q.1 q.2 < st.1.length
  · rw [phase_cell_id8 _ st.2 (hok _ hlt)]
    dsimp only
    rw [setc_getc_self]
  · have hz : getc st.1 (cell_idx width q.1 q.2) = zeroCell := getc_oob _ _ (by omega)
    rw [hz]
    have hpz : phase_cell zeroCell st.2 = (zeroCell, st.2) := by
      simp [phase_cell, zeroCell, SPECIES_WATER, SPECIES_ICE, SPECIES_STEAM,
        SPECIES_STONE, SPECIES_LAVA, SPECIES_OIL, SPECIES_PLANT, SPECIES_WOOD]
    rw [hpz]
    dsimp only
    rw [setc_oob _ _ _ (by omega)]

theorem phase_transitions_id8 (width height : Nat) (st : St)
    (hok : species_ok allowed8 st.1) :
    phase_transitions width height st = st := by
  unfold phase_transitions
  refine foldl_inv _ (fun s => s = st) _ st ?_ rfl
  intro q _ s hs
  rw [hs]
  exact phase_step_id8 width st q hok

theorem fires_stamped_extend (clk : Nat) (buf : Buf) (R : Nat → Prop) (i : Nat)
    (h : fires_stamped clk buf R)
    (hi : (getc buf i).species = SPECIES_FIRE → (getc buf i).clock = clk) :
    fires_stamped clk buf (fun k => R k ∨ k = i) := by
  intro k hk hr hf
  rcases hr with hr | rfl
  · exact h k hk hr hf
  · exact hi hf

/-- A rise step preserves the fire invariants; moreover the origin cell
afterwards is a stamped fire or not a fire at all. -/
theorem fire_rise (width height x y clk B : Nat) (R : Nat → Prop)
    (pred : Nat → Bool) (drift : Nat) (st1 : St)
    (hx : x < width) (hy : y < height) (hlen1 : st1.1.length = width * height)
    (hmid1 : fire_mid B clk st1.1) (hst1 : fires_stamped clk st1.1 R)
    (hself : (getc st1.1 (cell_idx width x y)).species = SPECIES_FIRE →
      (getc st1.1 (cell_idx width x y)).ra + 1 ≤ B)
    (hselfck : (getc st1.1 (cell_idx width x y)).species = SPECIES_FIRE →
      (getc st1.1 (cell_idx width x y)).clock = clk)
    (hpred : ∀ s, pred s = true → ¬ s = SPECIES_FIRE) :
    ((rise_gas width height x y clk pred drift st1).1).1.length = width * height ∧
    fire_mid B clk ((rise_gas width height x y clk pred drift st1).1).1 ∧
    fires_stamped clk ((rise_gas width height x y clk pred drift st1).1).1 R ∧
    ((getc ((rise_gas width height x y clk pred drift st1).1).1
        (cell_idx width x y)).species = SPECIES_FIRE →
      (getc ((rise_gas width height x y clk pred drift st1).1).1
        (cell_idx width x y)).clock = clk) := by
  have hi : cell_idx width x y < st1.1.length := by
    rw [hlen1]
    exact cell_idx_lt _ _ _ _ hx hy
  rcases rise_gas_cases width height x y clk pred drift st1 hx hy with
    h | ⟨x2, y2, hx2, hy2, hp, heq⟩
  · rw [h]
    exact ⟨hlen1, hmid1, hst1, hselfck⟩
  · rw [heq]
    have hj : cell_idx width x2 y2 < st1.1.length := by
      rw [hlen1]
      exact cell_idx_lt _ _ _ _ hx2 hy2
    have h2 := fire_stamped_swap B clk R st1.1 width x y x2 y2 hi hj hmid1 hst1
      hself (hpred _ hp)
    refine ⟨by rw [length_stamped_swap]; exact hlen1, h2.1, h2.2, ?_⟩
    rw [getc_stamped_swap _ _ _ _ _ _ _ _ hi hj]
    by_cases hij : cell_idx width x y = cell_idx width x2 y2
    · rw [if_pos hij]
      intro _
      rfl
    · rw [if_neg hij, if_pos rfl]
      intro hf
      exact absurd hf (hpred _ hp)

/-- update_smoke on a smoke cell preserves the fire invariants and never
leaves a fire at the origin. -/
theorem update_smoke_fire (width height x y clk B : Nat) (st1 : St) (R : Nat → Prop)
    (hx : x < width) (hy : y < height) (hlen1 : st1.1.length = width * height)
    (hmid1 : fire_mid B clk st1.1) (hst1 : fires_stamped clk st1.1 R)
    (hsp : (getc st1.1 (cell_idx width x y)).species = SPECIES_SMOKE) :
    (update_smoke width height x y clk st1).1.length = width * height ∧
    fire_mid B clk (update_smoke width height x y clk st1).1 ∧
    fires_stamped clk (update_smoke width height x y clk st1).1 R ∧
    ((getc (update_smoke width height x y clk st1).1
        (cell_idx width x y)).species = SPECIES_FIRE →
      (getc (update_smoke width height x y clk st1).1
        (cell_idx width x y)).clock = clk) := by
  have hi : cell_idx width x y < st1.1.length := by
    rw [hlen1]
    exact cell_idx_lt _ _ _ _ hx hy
  have hpredE : ∀ s, (s == SPECIES_EMPTY) = true → ¬ s = SPECIES_FIRE := by
    intro s hs
    have h2 : s = SPECIES_EMPTY := by simpa using hs
    rw [h2]
    decide
  simp only [update_smoke]
  split
  · have hs := fire_setc B clk R st1.1 (cell_idx width x y)
      { getc st1.1 (cell_idx width x y) with species := SPECIES_EMPTY, ra := 0, rb := 0 }
      hmid1 hst1 (show allowed8 SPECIES_EMPTY = true by decide)
      (fun hf => absurd (show SPECIES_EMPTY = SPECIES_FIRE from hf) (by decide))
      (fun hf => absurd (show SPECIES_EMPTY = SPECIES_FIRE from hf) (by decide))
    refine ⟨by rw [length_setc]; exact hlen1, hs.1, hs.2, ?_⟩
    rw [getc_setc_eq _ _ _ hi]
    intro hf
    exact absurd (show SPECIES_EMPTY = SPECIES_FIRE from hf) (by decide)
  · split
    · -- visual byte rewritten, then rise
      have h2 := fire_setc B clk R st1.1 (cell_idx width x y)
        { getc st1.1 (cell_idx width x y) with ra := (rand_ra (rand_lt 3 10 st1.2).2).1 }
        hmid1 hst1 ((hmid1 _ hi).1)
        (fun hf => absurd (show (getc st1.1 (cell_idx width x y)).species =
          SPECIES_FIRE from hf) (by rw [hsp]; decide))
        (fun hf => absurd (show (getc st1.1 (cell_idx width x y)).species =
          SPECIES_FIRE from hf) (by rw [hsp]; decide))
      exact fire_rise width height x y clk B R (fun s => s == SPECIES_EMPTY) 153
        (setc st1.1 (cell_idx width x y)
          { getc st1.1 (cell_idx width x y) with ra := (rand_ra (rand_lt 3 10 st1.2).2).1 },
         (rand_ra (rand_lt 3 10 st1.2).2).2)
        hx hy (by show (setc _ _ _).length = _; rw [length_setc]; exact hlen1)
        h2.1 h2.2
        (fun hf => by
          rw [getc_setc_eq _ _ _ hi] at hf
          exact absurd (show (getc st1.1 (cell_idx width x y)).species =
            SPECIES_FIRE from hf) (by rw [hsp]; decide))
        (fun hf => by
          rw [getc_setc_eq _ _ _ hi] at hf
          exact absurd (show (getc st1.1 (cell_idx width x y)).species =
            SPECIES_FIRE from hf) (by rw [hsp]; decide))
        hpredE
    · exact fire_rise width height x y clk B R (fun s => s == SPECIES_EMPTY) 153
        (st1.1, (rand_lt 3 10 st1.2).2) hx hy hlen1 hmid1 hst1
        (fun hf => absurd hf (by rw [hsp]; decide))
        (fun hf => absurd hf (by rw [hsp]; decide))
        hpredE

theorem fire_setc_exc (B clk : Nat) (R : Nat → Prop) (buf : Buf) (i : Nat) (c : Cell)
    (hexc : ∀ k, k < buf.length → k ≠ i →
      allowed8 (getc buf k).species = true ∧
      ((getc buf k).species = SPECIES_FIRE → 1 ≤ (getc buf k).ra ∧
        ((getc buf k).clock = clk → (getc buf k).ra + 1 ≤ B) ∧
        ((getc buf k).clock ≠ clk → (getc buf k).ra ≤ B)))
    (hstexc : ∀ k, k < buf.length → k ≠ i → R k →
      (getc buf k).species = SPECIES_FIRE → (getc buf k).clock = clk)
    (ha : allowed8 c.species = true)
    (hf : c.species = SPECIES_FIRE → 1 ≤ c.ra ∧
      (c.clock = clk → c.ra + 1 ≤ B) ∧ (c.clock ≠ clk → c.ra ≤ B))
    (hsf : c.species = SPECIES_FIRE → c.clock = clk) :
    fire_mid B clk (setc buf i c) ∧ fires_stamped clk (setc buf i c) R := by
  constructor
  · intro k hk
    rw [length_setc] at hk
    by_cases hki : k = i
    · subst hki
      by_cases hlt : k < buf.length
      · rw [getc_setc_eq _ _ _ hlt]
        exact ⟨ha, hf⟩
      · omega
    · rw [getc_setc_ne _ _ _ _ (fun he => hki he.symm)]
      exact hexc k hk hki
  · intro k hk hr
    rw [length_setc] at hk
    by_cases hki : k = i
    · subst hki
      by_cases hlt : k < buf.length
      · rw [getc_setc_eq _ _ _ hlt]
        exact fun hfi => hsf hfi
      · omega
    · rw [getc_setc_ne _ _ _ _ (fun he => hki he.symm)]
      exact hstexc k hk hki hr

/-- update_fire on a stamped fire cell with fuel in [1, B] restores the
full fire invariants; afterwards any fire at the origin is stamped. -/
theorem update_fire_fire (width height x y clk B : Nat) (st1 : St) (R : Nat → Prop)
    (hx : x < width) (hy : y < height) (hlen1 : st1.1.length = width * height)
    (hexc : ∀ k, k < st1.1.length → k ≠ cell_idx width x y →
      allowed8 (getc st1.1 k).species = true ∧
      ((getc st1.1 k).species = SPECIES_FIRE → 1 ≤ (getc st1.1 k).ra ∧
        ((getc st1.1 k).clock = clk → (getc st1.1 k).ra + 1 ≤ B) ∧
        ((getc st1.1 k).clock ≠ clk → (getc st1.1 k).ra ≤ B)))
    (hstexc : ∀ k, k < st1.1.length → k ≠ cell_idx width x y → R k →
      (getc st1.1 k).species = SPECIES_FIRE → (getc st1.1 k).clock = clk)
    (hisp : (getc st1.1 (cell_idx width x y)).species = SPECIES_FIRE)
    (hick : (getc st1.1 (cell_idx width x y)).clock = clk)
    (hira1 : 1 ≤ (getc st1.1 (cell_idx width x y)).ra)
    (hiraB : (getc st1.1 (cell_idx width x y)).ra ≤ B) :
    (update_fire width height x y clk st1).1.length = width * height ∧
    fire_mid B clk (update_fire width height x y clk st1).1 ∧
    fires_stamped clk (update_fire width height x y clk st1).1 R ∧
    ((getc (update_fire width height x y clk st1).1
        (cell_idx width x y)).species = SPECIES_FIRE →
      (getc (update_fire width height x y clk st1).1
        (cell_idx width x y)).clock = clk) := by
  have hi : cell_idx width x y < st1.1.length := by
    rw [hlen1]
    exact cell_idx_lt _ _ _ _ hx hy
  have hpredES : ∀ s, (s == SPECIES_EMPTY || s == SPECIES_SMOKE) = true →
      ¬ s = SPECIES_FIRE := by
    intro s hs
    have h2 : s = SPECIES_EMPTY ∨ s = SPECIES_SMOKE := by
      rcases Bool.or_eq_true_iff.1 hs with h | h
      · exact Or.inl (by simpa using h)
      · exact Or.inr (by simpa using h)
    rcases h2 with h | h <;> rw [h] <;> decide
  simp only [update_fire]
  split
  · -- fuel exhausted: smoke or empty
    split
    · have h2 := fire_setc_exc B clk R st1.1 (cell_idx width x y)
        { getc st1.1 (cell_idx width x y) with
          species := SPECIES_SMOKE, ra := (rand_ra (rand_lt 3 5 st1.2).2).1 }
        hexc hstexc (show allowed8 SPECIES_SMOKE = true by decide)
        (fun hf => absurd (show SPECIES_SMOKE = SPECIES_FIRE from hf) (by decide))
        (fun hf => absurd (show SPECIES_SMOKE = SPECIES_FIRE from hf) (by decide))
      refine ⟨by rw [length_setc]; exact hlen1, h2.1, h2.2, ?_⟩
      rw [getc_setc_eq _ _ _ hi]
      intro hf
      exact absurd (show SPECIES_SMOKE = SPECIES_FIRE from hf) (by decide)
    · have h2 := fire_setc_exc B clk R st1.1 (cell_idx width x y)
        { getc st1.1 (cell_idx width x y) with
          species := SPECIES_EMPTY, ra := 0, rb := 0 }
        hexc hstexc (show allowed8 SPECIES_EMPTY = true by decide)
        (fun hf => absurd (show SPECIES_EMPTY = SPECIES_FIRE from hf) (by decide))
        (fun hf => absurd (show SPECIES_EMPTY = SPECIES_FIRE from hf) (by decide))
      refine ⟨by rw [length_setc]; exact hlen1, h2.1, h2.2, ?_⟩
      rw [getc_setc_eq _ _ _ hi]
      intro hf
      exact absurd (show SPECIES_EMPTY = SPECIES_FIRE from hf) (by decide)
  · -- fuel at least 2
    next hfuel =>
    have hra2 : 2 ≤ (getc st1.1 (cell_idx width x y)).ra := by omega
    have hb1 := fire_setc_exc B clk R st1.1 (cell_idx width x y)
      { getc st1.1 (cell_idx width x y) with
        ra := (getc st1.1 (cell_idx width x y)).ra - 1 }
      hexc hstexc
      (show allowed8 (getc st1.1 (cell_idx width x y)).species = true by
        rw [hisp]; decide)
      (fun _ => ⟨show 1 ≤ (getc st1.1 (cell_idx width x y)).ra - 1 by omega,
        fun _ => show (getc st1.1 (cell_idx width x y)).ra - 1 + 1 ≤ B by omega,
        fun hne => absurd (show ({ getc st1.1 (cell_idx width x y) with
          ra := (getc st1.1 (cell_idx width x y)).ra - 1 } : Cell).clock = clk
          from hick) hne⟩)
      (fun _ => show ({ getc st1.1 (cell_idx width x y) with
        ra := (getc st1.1 (cell_idx width x y)).ra - 1 } : Cell).clock = clk
        from hick)
    have hgb1 : getc (setc st1.1 (cell_idx width x y)
        { getc st1.1 (cell_idx width x y) with
          ra := (getc st1.1 (cell_idx width x y)).ra - 1 }) (cell_idx width x y) =
        { getc st1.1 (cell_idx width x y) with
          ra := (getc st1.1 (cell_idx width x y)).ra - 1 } :=
      getc_setc_eq _ _ _ hi
    have hlenb1 : (setc st1.1 (cell_idx width x y)
        { getc st1.1 (cell_idx width x y) with
          ra := (getc st1.1 (cell_idx width x y)).ra - 1 }).length =
        width * height := by
      rw [length_setc]
      exact hlen1
    split
    · -- too cold: becomes smoke
      have h2 := fire_setc B clk R _ (cell_idx width x y)
        { getc (setc st1.1 (cell_idx width x y)
            { getc st1.1 (cell_idx width x y) with
              ra := (getc st1.1 (cell_idx width x y)).ra - 1 }) (cell_idx width x y) with
          species := SPECIES_SMOKE, ra := (rand_ra st1.2).1 }
        hb1.1 hb1.2 (show allowed8 SPECIES_SMOKE = true by decide)
        (fun hf => absurd (show SPECIES_SMOKE = SPECIES_FIRE from hf) (by decide))
        (fun hf => absurd (show SPECIES_SMOKE = SPECIES_FIRE from hf) (by decide))
      refine ⟨by rw [length_setc]; exact hlenb1, h2.1, h2.2, ?_⟩
      rw [getc_setc_eq _ _ _ (by rw [hlenb1, ← hlen1]; exact hi)]
      intro hf
      exact absurd (show SPECIES_SMOKE = SPECIES_FIRE from hf) (by decide)
    · -- burning on: cap temperature, radiate, rise
      rw [hgb1]
      have hb2 := fire_setc B clk R _ (cell_idx width x y)
        { { getc st1.1 (cell_idx width x y) with
            ra := (getc st1.1 (cell_idx width x y)).ra - 1 } with
          rb := (min (((getc st1.1 (cell_idx width x y)).rb : Int) + 3) 230).toNat }
        hb1.1 hb1.2
        (show allowed8 (getc st1.1 (cell_idx width x y)).species = true by
          rw [hisp]; decide)
        (fun _ => ⟨show 1 ≤ (getc st1.1 (cell_idx width x y)).ra - 1 by omega,
          fun _ => show (getc st1.1 (cell_idx width x y)).ra - 1 + 1 ≤ B by omega,
          fun hne => absurd (show ({ { getc st1.1 (cell_idx width x y) with
            ra := (getc st1.1 (cell_idx width x y)).ra - 1 } with
            rb := (min (((getc st1.1 (cell_idx width x y)).rb : Int) + 3) 230).toNat } : Cell).clock = clk
            from hick) hne⟩)
        (fun _ => show ({ { getc st1.1 (cell_idx width x y) with
          ra := (getc st1.1 (cell_idx width x y)).ra - 1 } with
          rb := (min (((getc st1.1 (cell_idx width x y)).rb : Int) + 3) 230).toNat } : Cell).clock = clk
          from hick)
      have hgb2 : getc (setc (setc st1.1 (cell_idx width x y)
          { getc st1.1 (cell_idx width x y) with
            ra := (getc st1.1 (cell_idx width x y)).ra - 1 }) (cell_idx width x y)
          { { getc st1.1 (cell_idx width x y) with
              ra := (getc st1.1 (cell_idx width x y)).ra - 1 } with
            rb := (min (((getc st1.1 (cell_idx width x y)).rb : Int) + 3) 230).toNat })
          (cell_idx width x y) =
          { { getc st1.1 (cell_idx width x y) with
              ra := (getc st1.1 (cell_idx width x y)).ra - 1 } with
            rb := (min (((getc st1.1 (cell_idx width x y)).rb : Int) + 3) 230).toNat } :=
        getc_setc_eq _ _ _ (by rw [hlenb1, ← hlen1]; exact hi)
      have hlenb2 : (setc (setc st1.1 (cell_idx width x y)
          { getc st1.1 (cell_idx width x y) with
            ra := (getc st1.1 (cell_idx width x y)).ra - 1 }) (cell_idx width x y)
          { { getc st1.1 (cell_idx width x y) with
              ra := (getc st1.1 (cell_idx width x y)).ra - 1 } with
            rb := (min (((getc st1.1 (cell_idx width x y)).rb : Int) + 3) 230).toNat }).length =
          width * height := by
        rw [length_setc]
        exact hlenb1
      have hrad := radiate_pointwise width height x y 2 _ hx hy hlenb2
      have hsac : same_sac (radiate_heat width height x y 2
          (setc (setc st1.1 (cell_idx width x y)
            { getc st1.1 (cell_idx width x y) with
              ra := (getc st1.1 (cell_idx width x y)).ra - 1 }) (cell_idx width x y)
            { { getc st1.1 (cell_idx width x y) with
                ra := (getc st1.1 (cell_idx width x y)).ra - 1 } with
              rb := (min (((getc st1.1 (cell_idx width x y)).rb : Int) + 3) 230).toNat }))
          (setc (setc st1.1 (cell_idx width x y)
            { getc st1.1 (cell_idx width x y) with
              ra := (getc st1.1 (cell_idx width x y)).ra - 1 }) (cell_idx width x y)
            { { getc st1.1 (cell_idx width x y) with
                ra := (getc st1.1 (cell_idx width x y)).ra - 1 } with
              rb := (min (((getc st1.1 (cell_idx width x y)).rb : Int) + 3) 230).toNat }) :=
        ⟨hrad.1, fun k => hrad.2.1 k⟩
      have hb3 := fire_of_same_sac B clk R hsac hb2.1 hb2.2
      have hgb3 := hrad.2.2
      rw [hgb2] at hgb3
      have hlenb3 : (radiate_heat width height x y 2
          (setc (setc st1.1 (cell_idx width x y)
            { getc st1.1 (cell_idx width x y) with
              ra := (getc st1.1 (cell_idx width x y)).ra - 1 }) (cell_idx width x y)
            { { getc st1.1 (cell_idx width x y) with
                ra := (getc st1.1 (cell_idx width x y)).ra - 1 } with
              rb := (min (((getc st1.1 (cell_idx width x y)).rb : Int) + 3) 230).toNat })).length =
          width * height := by
        rw [hrad.1]
        exact hlenb2
      exact fire_rise width height x y clk B R
        (fun s => s == SPECIES_EMPTY || s == SPECIES_SMOKE) 77 _ hx hy hlenb3
        hb3.1 hb3.2
        (fun _ => by rw [hgb3]; show (getc st1.1 (cell_idx width x y)).ra - 1 + 1 ≤ B; omega)
        (fun _ => by rw [hgb3]; exact hick)
        hpredES

/-- One scan step preserves the fire invariants and adds the processed
position to the region where every fire is stamped. -/
theorem scan_cell_fire (width height clk B x y : Nat) (st : St) (R : Nat → Prop)
    (hx : x < width) (hy : y < height) (hlen : st.1.length = width * height)
    (hmid : fire_mid B clk st.1) (hst : fires_stamped clk st.1 R) :
    (scan_cell width height clk x y st).1.length = width * height ∧
    fire_mid B clk (scan_cell width height clk x y st).1 ∧
    fires_stamped clk (scan_cell width height clk x y st).1
      (fun k => R k ∨ k = cell_idx width x y) := by
  have hi : cell_idx width x y < st.1.length := by
    rw [hlen]
    exact cell_idx_lt _ _ _ _ hx hy
  simp only [scan_cell]
  split
  · next hck =>
    have hcke : (getc st.1 (cell_idx width x y)).clock = clk := by simpa using hck
    exact ⟨hlen, hmid, fires_stamped_extend clk st.1 R _ hst (fun _ => hcke)⟩
  · next hck =>
    have hcke : ¬ (getc st.1 (cell_idx width x y)).clock = clk := by simpa using hck
    have hlen0 : (set_clock st.1 width x y clk).length = width * height := by
      rw [length_set_clock]
      exact hlen
    have hgb0i : getc (set_clock st.1 width x y clk) (cell_idx width x y) =
        { getc st.1 (cell_idx width x y) with clock := clk } := by
      rw [getc_set_clock _ _ _ _ _ _ hi, if_pos rfl]
    have hgb0ne : ∀ k, k ≠ cell_idx width x y →
        getc (set_clock st.1 width x y clk) k = getc st.1 k := by
      intro k hk
      rw [getc_set_clock _ _ _ _ _ _ hi, if_neg hk]
    have h4 : (getc st.1 (cell_idx width x y)).species = 0 ∨
        (getc st.1 (cell_idx width x y)).species = 4 ∨
        (getc st.1 (cell_idx width x y)).species = 11 ∨
        (getc st.1 (cell_idx width x y)).species = 5 := by
      have := (hmid _ hi).1
      simp only [allowed8, Bool.or_eq_true, beq_iff_eq, SPECIES_EMPTY,
        SPECIES_WALL, SPECIES_SMOKE, SPECIES_FIRE] at this
      tauto
    rcases h4 with h | h | h | h
    all_goals simp only [scan_dispatch, h, SPECIES_SAND, SPECIES_WATER,
      SPECIES_OIL, SPECIES_FIRE, SPECIES_PLANT, SPECIES_STEAM, SPECIES_LAVA,
      SPECIES_STONE, SPECIES_SMOKE, SPECIES_ACID, Nat.reduceBEq,
      Bool.false_eq_true, if_false, beq_self_eq_true, if_true]
    · -- empty
      have hs := fire_setc B clk R st.1 (cell_idx width x y)
        { getc st.1 (cell_idx width x y) with clock := clk } hmid hst
        ((hmid _ hi).1)
        (fun hf => absurd (show (getc st.1 (cell_idx width x y)).species =
          SPECIES_FIRE from hf) (by rw [h]; decide))
        (fun hf => absurd (show (getc st.1 (cell_idx width x y)).species =
          SPECIES_FIRE from hf) (by rw [h]; decide))
      refine ⟨hlen0, hs.1, fires_stamped_extend _ _ _ _ hs.2 (fun hf => ?_)⟩
      rw [hgb0i] at hf
      exact absurd (show (getc st.1 (cell_idx width x y)).species =
        SPECIES_FIRE from hf) (by rw [h]; decide)
    · -- wall
      have hs := fire_setc B clk R st.1 (cell_idx width x y)
        { getc st.1 (cell_idx width x y) with clock := clk } hmid hst
        ((hmid _ hi).1)
        (fun hf => absurd (show (getc st.1 (cell_idx width x y)).species =
          SPECIES_FIRE from hf) (by rw [h]; decide))
        (fun hf => absurd (show (getc st.1 (cell_idx width x y)).species =
          SPECIES_FIRE from hf) (by rw [h]; decide))
      refine ⟨hlen0, hs.1, fires_stamped_extend _ _ _ _ hs.2 (fun hf => ?_)⟩
      rw [hgb0i] at hf
      exact absurd (show (getc st.1 (cell_idx width x y)).species =
        SPECIES_FIRE from hf) (by rw [h]; decide)
    · -- smoke
      have hs := fire_setc B clk R st.1 (cell_idx width x y)
        { getc st.1 (cell_idx width x y) with clock := clk } hmid hst
        ((hmid _ hi).1)
        (fun hf => absurd (show (getc st.1 (cell_idx width x y)).species =
          SPECIES_FIRE from hf) (by rw [h]; decide))
        (fun hf => absurd (show (getc st.1 (cell_idx width x y)).species =
          SPECIES_FIRE from hf) (by rw [h]; decide))
      have hsp0 : (getc (set_clock st.1 width x y clk) (cell_idx width x y)).species =
          SPECIES_SMOKE := by
        rw [hgb0i]
        exact h
      have hq := update_smoke_fire width height x y clk B
        (set_clock st.1 width x y clk, st.2) R hx hy hlen0 hs.1 hs.2 hsp0
      exact ⟨hq.1, hq.2.1, fires_stamped_extend _ _ _ _ hq.2.2.1 hq.2.2.2⟩
    · -- fire
      have hm := (hmid _ hi).2 h
      have hq := update_fire_fire width height x y clk B
        (set_clock st.1 width x y clk, st.2) R hx hy hlen0
        (fun k hk hkne => by
          rw [hgb0ne k hkne]
          refine hmid k ?_
          have h1 : (set_clock st.1 width x y clk).length = st.1.length :=
            length_set_clock _ _ _ _ _
          dsimp only at hk
          omega)
        (fun k hk hkne hr => by
          rw [hgb0ne k hkne]
          refine hst k ?_ hr
          have h1 : (set_clock st.1 width x y clk).length = st.1.length :=
            length_set_clock _ _ _ _ _
          dsimp only at hk
          omega)
        (by rw [hgb0i]; exact h)
        (by rw [hgb0i])
        (by rw [hgb0i]; exact hm.1)
        (by rw [hgb0i]; exact hm.2.2 hcke)
      exact ⟨hq.1, hq.2.1, fires_stamped_extend _ _ _ _ hq.2.2.1 hq.2.2.2⟩

theorem row_scan_fire (width height clk B y : Nat) (R0 : Nat → Prop) (st : St)
    (hy : y < height) (hlen : st.1.length = width * height)
    (hmid : fire_mid B clk st.1) (hst : fires_stamped clk st.1 R0) :
    (row_scan width height clk y st).1.length = width * height ∧
    fire_mid B clk (row_scan width height clk y st).1 ∧
    fires_stamped clk (row_scan width height clk y st).1
      (fun k => R0 k ∨ k / width = y) := by
  simp only [row_scan]
  have hfold := foldl_ind
    (fun (s : St) step => scan_cell width height clk
      (if (rand_bool st.2).1 then step else width - 1 - step) y s)
    (fun done s => s.1.length = width * height ∧ fire_mid B clk s.1 ∧
      fires_stamped clk s.1 (fun k => R0 k ∨ ∃ t ∈ done,
        k = cell_idx width (if (rand_bool st.2).1 then t else width - 1 - t) y))
    (List.range width) [] (st.1, (rand_bool st.2).2)
    ⟨hlen, hmid, by
      refine fires_stamped_mono clk st.1 _ _ hst ?_
      intro k _ hr
      rcases hr with hr | ⟨t, ht, _⟩
      · exact hr
      · exact absurd ht (List.not_mem_nil t)⟩
    (by
      intro d i s hiL hq
      have hxw : (if (rand_bool st.2).1 then i else width - 1 - i) < width := by
        have := List.mem_range.1 hiL
        split <;> omega
      have h2 := scan_cell_fire width height clk B _ y s _ hxw hy hq.1 hq.2.1 hq.2.2
      refine ⟨h2.1, h2.2.1, fires_stamped_mono _ _ _ _ h2.2.2 ?_⟩
      intro k _ hr
      rcases hr with hr | ⟨t, ht, he⟩
      · exact Or.inl (Or.inl hr)
      · rcases List.mem_append.1 ht with ht | ht
        · exact Or.inl (Or.inr ⟨t, ht, he⟩)
        · have : t = i := by simpa using ht
          subst this
          exact Or.inr he)
  rw [List.nil_append] at hfold
  refine ⟨hfold.1, hfold.2.1, fires_stamped_mono _ _ _ _ hfold.2.2 ?_⟩
  intro k hk hr
  rcases hr with hr | hrow
  · exact Or.inl hr
  · right
    have hklen : k < width * height := by
      have := hfold.1
      omega
    have hw : 0 < width := by
      by_contra h0
      have hz : width = 0 := by omega
      rw [hz] at hklen
      omega
    by_cases hb : (rand_bool st.2).1 = true
    · refine ⟨k % width, List.mem_range.2 (Nat.mod_lt _ hw), ?_⟩
      rw [if_pos hb]
      unfold cell_idx
      rw [← hrow, Nat.mul_comm]
      exact (Nat.div_add_mod k width).symm
    · refine ⟨width - 1 - k % width, List.mem_range.2 (by omega), ?_⟩
      rw [if_neg hb]
      have h1 : k % width < width := Nat.mod_lt _ hw
      have h2 : width - 1 - (width - 1 - k % width) = k % width := by omega
      rw [h2]
      unfold cell_idx
      rw [← hrow, Nat.mul_comm]
      exact (Nat.div_add_mod k width).symm

theorem tick_scan_fire (width height clk B : Nat) (st : St)
    (hlen : st.1.length = width * height)
    (hmid : fire_mid B clk st.1) :
    (tick_scan width height clk st).1.length = width * height ∧
    fire_mid B clk (tick_scan width height clk st).1 ∧
    ∀ k, k < (tick_scan width height clk st).1.length →
      (getc (tick_scan width height clk st).1 k).species = SPECIES_FIRE →
      (getc (tick_scan width height clk st).1 k).clock = clk := by
  unfold tick_scan
  have hfold := foldl_ind
    (fun (s : St) y => row_scan width height clk y s)
    (fun done s => s.1.length = width * height ∧ fire_mid B clk s.1 ∧
      fires_stamped clk s.1 (fun k => ∃ r ∈ done, k / width = r))
    ((List.range height).reverse) [] st
    ⟨hlen, hmid, by
      intro k _ hr
      obtain ⟨r, hr0, _⟩ := hr
      exact absurd hr0 (List.not_mem_nil r)⟩
    (by
      intro d y s hyL hq
      have hy : y < height := List.mem_range.1 (List.mem_reverse.1 hyL)
      have h2 := row_scan_fire width height clk B y _ s hy hq.1 hq.2.1 hq.2.2
      refine ⟨h2.1, h2.2.1, fires_stamped_mono _ _ _ _ h2.2.2 ?_⟩
      intro k _ hr
      obtain ⟨r, hr0, he⟩ := hr
      rcases List.mem_append.1 hr0 with h3 | h3
      · exact Or.inl ⟨r, h3, he⟩
      · have : r = y := by simpa using h3
        subst this
        exact Or.inr he)
  rw [List.nil_append] at hfold
  refine ⟨hfold.1, hfold.2.1, ?_⟩
  intro k hk hf
  have hklen : k < width * height := by
    have := hfold.1
    omega
  have hw : 0 < width := by
    by_contra h0
    have hz : width = 0 := by omega
    rw [hz] at hklen
    omega
  refine hfold.2.2 k hk ⟨k / width, ?_, rfl⟩ hf
  rw [List.mem_reverse]
  refine List.mem_range.2 ?_
  rw [Nat.div_lt_iff_lt_mul hw, Nat.mul_comm height width]
  exact hklen

theorem tick_fire (w : World) (B : Nat)
    (hlen : w.cells.length = w.width * w.height)
    (hall : ∀ k, k < w.cells.length → allowed8 (getc w.cells k).species = true)
    (hfire : ∀ k, k < w.cells.length →
      (getc w.cells k).species = SPECIES_FIRE →
      1 ≤ (getc w.cells k).ra ∧ (getc w.cells k).ra ≤ B ∧
      (getc w.cells k).clock = w.clock) :
    w.tick.cells.length = w.width * w.height ∧
    (∀ k, k < w.tick.cells.length →
      allowed8 (getc w.tick.cells k).species = true) ∧
    ∀ k, k < w.tick.cells.length →
      (getc w.tick.cells k).species = SPECIES_FIRE →
      1 ≤ (getc w.tick.cells k).ra ∧ (getc w.tick.cells k).ra ≤ B - 1 ∧
      (getc w.tick.cells k).clock = w.tick.clock := by
  have hne : ¬ (if w.clock == 0 then 1 else 0) = w.clock := by
    split
    · next h => simp at h; omega
    · next h => simp at h; omega
  have hmid0 : fire_mid B (if w.clock == 0 then 1 else 0) w.cells := by
    intro k hk
    refine ⟨hall k hk, fun hf => ?_⟩
    obtain ⟨h1, h2, h3⟩ := hfire k hk hf
    exact ⟨h1, fun hck => absurd (hck.symm.trans h3) hne, fun _ => h2⟩
  have hsac := heat_conduction_sac w.width w.height (w.cells, w.rng)
  have hmid1 := (fire_of_same_sac B (if w.clock == 0 then 1 else 0)
    (fun _ => False) hsac hmid0 (fun _ _ h => h.elim)).1
  have hok1 : species_ok allowed8
      (heat_conduction w.width w.height (w.cells, w.rng)).1 :=
    fun k hk => (hmid1 k hk).1
  have hid := phase_transitions_id8 w.width w.height
    (heat_conduction w.width w.height (w.cells, w.rng)) hok1
  have hlen1 : (heat_conduction w.width w.height (w.cells, w.rng)).1.length =
      w.width * w.height := by
    rw [hsac.1]
    exact hlen
  have hscan := tick_scan_fire w.width w.height (if w.clock == 0 then 1 else 0)
    B _ hlen1 hmid1
  show (World.tick w).cells.length = _ ∧ _
  simp only [World.tick, hid]
  refine ⟨hscan.1, fun k hk => (hscan.2.1 k hk).1, ?_⟩
  intro k hk hf
  obtain ⟨_, hfm⟩ := hscan.2.1 k hk
  obtain ⟨h1, h2, _⟩ := hfm hf
  have hck := hscan.2.2 k hk hf
  exact ⟨h1, by have := h2 hck; omega, hck⟩

theorem tickN_fire (w0 : World) (B : Nat)
    (hlen : w0.cells.length = w0.width * w0.height)
    (hall : ∀ k, k < w0.cells.length → allowed8 (getc w0.cells k).species = true)
    (hfire : ∀ k, k < w0.cells.length →
      (getc w0.cells k).species = SPECIES_FIRE →
      1 ≤ (getc w0.cells k).ra ∧ (getc w0.cells k).ra ≤ B ∧
      (getc w0.cells k).clock = w0.clock) :
    ∀ N,
      (World.tick^[N] w0).width = w0.width ∧
      (World.tick^[N] w0).height = w0.height ∧
      (World.tick^[N] w0).cells.length = w0.width * w0.height ∧
      (∀ k, k < (World.tick^[N] w0).cells.length →
        allowed8 (getc (World.tick^[N] w0).cells k).species = true) ∧
      ∀ k, k < (World.tick^[N] w0).cells.length →
        (getc (World.tick^[N] w0).cells k).species = SPECIES_FIRE →
        1 ≤ (getc (World.tick^[N] w0).cells k).ra ∧
        (getc (World.tick^[N] w0).cells k).ra ≤ B - N ∧
        (getc (World.tick^[N] w0).cells k).clock = (World.tick^[N] w0).clock
  | 0 => ⟨rfl, rfl, hlen, hall, fun k hk hf => hfire k hk hf⟩
  | N + 1 => by
    obtain ⟨hw, hh, hl, ha, hf⟩ := tickN_fire w0 B hlen hall hfire N
    rw [Function.iterate_succ_apply']
    have hl2 : (World.tick^[N] w0).cells.length =
        (World.tick^[N] w0).width * (World.tick^[N] w0).height := by
      rw [hw, hh]
      exact hl
    have ht := tick_fire (World.tick^[N] w0) (B - N) hl2 ha hf
    refine ⟨hw, hh, ?_, ht.2.1, ?_⟩
    · rw [ht.1, hw, hh]
    · intro k hk hfk
      obtain ⟨h1, h2, h3⟩ := ht.2.2 k hk hfk
      exact ⟨h1, by omega, h3⟩

/-- Claim C8: combustion termination.  (a) In any grid containing only
empty, wall and fire cells, where every fire cell has fuel counter ra
between 1 and f and carries the world's clock parity, after f ticks no
cell of the grid is fire: every cell is empty, wall or smoke.  (b) A
fire cell whose fuel counter is at or below 1 converts to smoke or
empty in its very next species update. -/
theorem combustion_termination :
    (∀ (w0 : World) (f : Nat), 1 ≤ f →
      w0.cells.length = w0.width * w0.height →
      (∀ k, k < w0.cells.length →
        (getc w0.cells k).species = SPECIES_EMPTY ∨
        (getc w0.cells k).species = SPECIES_WALL ∨
        (getc w0.cells k).species = SPECIES_FIRE) →
      (∀ k, k < w0.cells.length →
        (getc w0.cells k).species = SPECIES_FIRE →
        1 ≤ (getc w0.cells k).ra ∧ (getc w0.cells k).ra ≤ f ∧
        (getc w0.cells k).clock = w0.clock) →
      ∀ k, k < (World.tick^[f] w0).cells.length →
        (getc (World.tick^[f] w0).cells k).species = SPECIES_EMPTY ∨
        (getc (World.tick^[f] w0).cells k).species = SPECIES_WALL ∨
        (getc (World.tick^[f] w0).cells k).species = SPECIES_SMOKE) ∧
    (∀ (width height x y clk : Nat) (st : St), x < width → y < height →
      st.1.length = width * height →
      (getc st.1 (cell_idx width x y)).ra ≤ 1 →
      (getc (update_fire width height x y clk st).1
          (cell_idx width x y)).species = SPECIES_SMOKE ∨
      (getc (update_fire width height x y clk st).1
          (cell_idx width x y)).species = SPECIES_EMPTY) := by
  constructor
  · intro w0 f _ hlen hsp hfi k hk
    have hall : ∀ j, j < w0.cells.length →
        allowed8 (getc w0.cells j).species = true := by
      intro j hj
      rcases hsp j hj with h | h | h <;> rw [h] <;> decide
    have ht := tickN_fire w0 f hlen hall hfi f
    have hnf : ¬ (getc (World.tick^[f] w0).cells k).species = SPECIES_FIRE := by
      intro hfk
      obtain ⟨h1, h2, _⟩ := ht.2.2.2.2 k hk hfk
      omega
    have ha := ht.2.2.2.1 k hk
    simp only [allowed8, Bool.or_eq_true, beq_iff_eq] at ha
    rcases ha with ((h | h) | h) | h
    · exact Or.inl h
    · exact Or.inr (Or.inl h)
    · exact Or.inr (Or.inr h)
    · exact absurd h hnf
  · intro width height x y clk st hx hy hlen hra
    have hlt : cell_idx width x y < st.1.length := by
      rw [hlen]
      exact cell_idx_lt width height x y hx hy
    simp only [update_fire]
    rw [if_pos hra]
    split
    · left
      rw [getc_setc_eq st.1 _ _ hlt]
    · right
      rw [getc_setc_eq st.1 _ _ hlt]

def c8world : World :=
  { width := 3, height := 3,
    cells := List.replicate 4 zeroCell ++
      [{ species := SPECIES_FIRE, ra := 1, rb := 0, clock := 0 }] ++
      List.replicate 4 zeroCell,
    clock := 0, rng := RNG_SEED }

set_option maxRecDepth 8192 in
theorem combustion_termination_witness :
    ((1 ≤ 1 ∧ c8world.cells.length = c8world.width * c8world.height ∧
      (∀ k, k < c8world.cells.length →
        (getc c8world.cells k).species = SPECIES_EMPTY ∨
        (getc c8world.cells k).species = SPECIES_WALL ∨
        (getc c8world.cells k).species = SPECIES_FIRE) ∧
      (∀ k, k < c8world.cells.length →
        (getc c8world.cells k).species = SPECIES_FIRE →
        1 ≤ (getc c8world.cells k).ra ∧ (getc c8world.cells k).ra ≤ 1 ∧
        (getc c8world.cells k).clock = c8world.clock)) ∧
     ∀ k, k < (World.tick^[1] c8world).cells.length →
       (getc (World.tick^[1] c8world).cells k).species = SPECIES_EMPTY ∨
       (getc (World.tick^[1] c8world).cells k).species = SPECIES_WALL ∨
       (getc (World.tick^[1] c8world).cells k).species = SPECIES_SMOKE) ∧
    ((0 < 1 ∧ 0 < 1 ∧
      (([{ species := SPECIES_FIRE, ra := 1, rb := 0, clock := 0 }],
        5) : St).1.length = 1 * 1 ∧
      (getc (([{ species := SPECIES_FIRE, ra := 1, rb := 0, clock := 0 }],
        5) : St).1 (cell_idx 1 0 0)).ra ≤ 1) ∧
     ((getc (update_fire 1 1 0 0 7
          (([{ species := SPECIES_FIRE, ra := 1, rb := 0, clock := 0 }],
            5) : St)).1 (cell_idx 1 0 0)).species = SPECIES_SMOKE ∨
      (getc (update_fire 1 1 0 0 7
          (([{ species := SPECIES_FIRE, ra := 1, rb := 0, clock := 0 }],
            5) : St)).1 (cell_idx 1 0 0)).species = SPECIES_EMPTY)) :=
  ⟨⟨⟨by decide, by decide, by decide, by decide⟩,
    combustion_termination.1 c8world 1 (by decide) (by decide) (by decide)
      (by decide)⟩,
   ⟨⟨by decide, by decide, by decide, by decide⟩,
    combustion_termination.2 1 1 0 0 7 _ (by decide) (by decide) (by decide)
      (by decide)⟩⟩
